import Mathlib

/-!
Verification development for the ScreHelper screening application.

The definitions below are a shallow embedding of the repository's core logic:
the classification-batch orchestrator, the backend response parsing, the
import/export pipeline and the result aggregator.  TypeScript values that can
hold arbitrary JSON data are modelled by the `Json` inductive; JavaScript
objects produced by spreadsheet parsing are modelled as assignment lists
(`Row`) with last-assignment-wins lookup, matching JS property assignment.
-/

/-- Model of a JSON / JavaScript value as produced by `JSON.parse` and
spreadsheet parsing.  Numbers are modelled as integers (no float appears in
any behaviour the claims depend on). -/
inductive Json where
  | null
  | bool (b : Bool)
  | num (n : Int)
  | str (s : String)
  | arr (elems : List Json)
  | obj (fields : List (String × Json))


/-- JavaScript truthiness of an optional value (`none` models `undefined`).
Mirrors `Boolean(x)`: `undefined`, `null`, `false`, `0` and the empty string
are falsy, everything else (including objects and arrays) is truthy. -/
def jsTruthy : Option Json → Bool
  | none => false
  | some .null => false
  | some (.bool b) => b
  | some (.num n) => decide (n ≠ 0)
  | some (.str s) => decide (s ≠ "")
  | some (.arr _) => true
  | some (.obj _) => true

mutual
/-- JavaScript `String(v)` conversion for a JSON value. -/
def jsStringOfJson : Json → String
  | .null => "null"
  | .bool true => "true"
  | .bool false => "false"
  | .num n => toString n
  | .str s => s
  | .arr xs => String.intercalate "," (jsStringOfArr xs)
  | .obj _ => "[object Object]"

/-- JavaScript `Array.prototype.toString` element conversion:
`null` elements become the empty string. -/
def jsStringOfArr : List Json → List String
  | [] => []
  | .null :: rest => "" :: jsStringOfArr rest
  | v :: rest => jsStringOfJson v :: jsStringOfArr rest
end

/-- Decidable equality for `Except`, used only to evaluate the models at
concrete inputs. -/
instance {e a : Type} [DecidableEq e] [DecidableEq a] : DecidableEq (Except e a) := fun x y =>
  match x, y with
  | .ok v, .ok w => if h : v = w then isTrue (by rw [h]) else isFalse (by simp [h])
  | .error v, .error w => if h : v = w then isTrue (by rw [h]) else isFalse (by simp [h])
  | .ok _, .error _ => isFalse (by simp)
  | .error _, .ok _ => isFalse (by simp)

/-- The article record of `src/lib/data.ts`: title, abstract, and optional
doi/source captured at import time (absent modelled as the empty string,
which is what the import code assigns). -/
structure Article where
  title : String
  abstract : String
  doi : String := ""
  source : String := ""
deriving DecidableEq

/-- Content identity of a record: the `(title, abstract)` pair. -/
def articleKey (a : Article) : String × String := (a.title, a.abstract)

/-- The verdict produced by a classification backend
(`ClassifyArticleOutput`): the `include` flag (named `incl` here because
`include` is a Lean keyword), the reason and the cited criterion. -/
structure Verdict where
  incl : Bool
  reason : String
  criterion : String
deriving DecidableEq

/-- A row of tabular data: a JavaScript object modelled as an assignment
list.  Later assignments shadow earlier ones (see `getVal`). -/
abbrev Row : Type := List (String × Json)

/-- Property read `row[k]`: the last assignment wins, `none` models
`undefined`. -/
def getVal (r : Row) (k : String) : Option Json :=
  (r.reverse.find? (fun p => p.1 = k)).map (fun p => p.2)

/-- `row.hasOwnProperty(k)`. -/
def hasKey (r : Row) (k : String) : Bool :=
  (r.find? (fun p => p.1 = k)).isSome

/-- The `ClassifiedArticle` interface of the page component: an article plus
its verdict and the (optional) original imported row. -/
structure ClassifiedArticle extends Article where
  classification : Verdict
  originalData : Option Row := none

/-- Content identity of a classified record. -/
def caKey (c : ClassifiedArticle) : String × String := (c.title, c.abstract)

/-- JavaScript `String.prototype.toLowerCase`, modelled character-wise (the
built-in `String.toLower` is not kernel-reducible). -/
def jsToLower (s : String) : String := String.mk (s.data.map Char.toLower)

/-- Whitespace as recognised by JavaScript `String.trim`. -/
def isJsSpace (c : Char) : Bool :=
  c = ' ' || c = '\t' || c = '\n' || c = '\r' || c = '\x0b' || c = '\x0c'

/-- JavaScript `String.trim`. -/
def jsTrim (s : String) : String :=
  String.mk (((s.data.dropWhile isJsSpace).reverse.dropWhile isJsSpace).reverse)

/-! ## Result aggregator (`classificationCounts`, `criteriaStatistics`) -/

/-- The `{included, excluded, total}` record computed by the
`classificationCounts` memo. -/
structure ClassificationCounts where
  included : Nat
  excluded : Nat
  total : Nat
deriving DecidableEq

/-- Embeds the `classificationCounts` memo of the page component. -/
def classificationCounts (cas : List ClassifiedArticle) : ClassificationCounts :=
  { included := (cas.filter (fun a => a.classification.incl)).length
    excluded := (cas.filter (fun a => !a.classification.incl)).length
    total := cas.length }

/-- One entry of the per-criterion statistics. -/
structure CriterionStat where
  criterion : String
  included : Nat
  excluded : Nat
  total : Nat
deriving DecidableEq

/-- Updating an existing map entry in `criteriaStatistics`. -/
def bumpStat (st : CriterionStat) (incl : Bool) : CriterionStat :=
  { st with
      included := if incl then st.included + 1 else st.included
      excluded := if incl then st.excluded else st.excluded + 1
      total := st.total + 1 }

/-- `stats.set(normalizedCriterion, existing-updated)`: a JS `Map` keeps
insertion order and updates an existing key in place. -/
def upsertStat (k : String) (incl : Bool) : List CriterionStat → List CriterionStat
  | [] => [⟨k, if incl then 1 else 0, if incl then 0 else 1, 1⟩]
  | e :: rest =>
      if e.criterion = k then bumpStat e incl :: rest
      else e :: upsertStat k incl rest

/-- One iteration of the `criteriaStatistics` loop: a record whose criterion
is empty or whitespace-only is skipped, any other record is counted under
its exact trimmed criterion string. -/
def statsStep (acc : List CriterionStat) (a : ClassifiedArticle) : List CriterionStat :=
  if jsTrim a.classification.criterion = "" then acc
  else upsertStat (jsTrim a.classification.criterion) a.classification.incl acc

/-- The `Map`-building loop of the `criteriaStatistics` memo. -/
def statsFold (cas : List ClassifiedArticle) : List CriterionStat :=
  cas.foldl statsStep []

/-- Whether a record's trimmed criterion equals the group key `k`. -/
def critMatch (k : String) (a : ClassifiedArticle) : Bool :=
  jsTrim a.classification.criterion == k

/-- Correctness of one emitted statistics entry with respect to a completed
set `P`: its key is non-empty and its three counters count exactly the
records of `P` whose trimmed criterion equals the key. -/
def statCorrect (P : List ClassifiedArticle) (e : CriterionStat) : Prop :=
  e.criterion ≠ "" ∧
  e.total = P.countP (critMatch e.criterion) ∧
  e.included = P.countP (fun a => critMatch e.criterion a && a.classification.incl) ∧
  e.excluded = P.countP (fun a => critMatch e.criterion a && !a.classification.incl)

/-- Embeds the `criteriaStatistics` memo: build the per-criterion map, then
`sort((a, b) => b.total - a.total)` — a stable sort descending by total. -/
def criteriaStatistics (cas : List ClassifiedArticle) : List CriterionStat :=
  (statsFold cas).mergeSort (fun a b => b.total ≤ a.total)

/-! ## Backend adapter: verdict extraction from the raw response text

`classifyWithOllama` and `classifyWithDeepSeek` both run
`result.content.match(/\x7b[\s\S]*\x7d/)` on the response text, feed the
match to `JSON.parse`, and coerce the parsed object's fields.  The network
call itself is an external collaborator; the definitions below embed the
response-parsing slice of the two adapters. -/

def openBrace : Char := '\x7b'

def closeBrace : Char := '\x7d'

/-- Whitespace skipped by the JSON grammar. -/
def skipWs (s : List Char) : List Char :=
  s.dropWhile (fun c => c = ' ' || c = '\t' || c = '\n' || c = '\r')

/-- JSON string escapes (`\uXXXX` is not modelled; no input in this
development uses it). -/
def escChar (e : Char) : Option Char :=
  if e = '"' ∨ e = '\\' ∨ e = '/' then some e
  else if e = 'n' then some '\n'
  else if e = 't' then some '\t'
  else if e = 'r' then some '\r'
  else if e = 'b' then some '\x08'
  else if e = 'f' then some '\x0c'
  else none

/-- Parse the body of a JSON string after the opening quote; returns the
decoded characters and the remainder after the closing quote. -/
def parseStringBody : List Char → Option (List Char × List Char)
  | [] => none
  | '"' :: rest => some ([], rest)
  | '\\' :: e :: rest => do
      let c ← escChar e
      let (acc, r) ← parseStringBody rest
      some (c :: acc, r)
  | c :: rest => do
      let (acc, r) ← parseStringBody rest
      some (c :: acc, r)

/-- Parse a JSON integer literal (floats are not modelled; no behaviour the
claims depend on involves them, and an exponent or fraction makes the model
parser fail). -/
def parseIntToken (s : List Char) : Option (Int × List Char) :=
  let (neg, s1) := match s with
    | '-' :: r => (true, r)
    | _ => (false, s)
  let ds := s1.takeWhile Char.isDigit
  let rest := s1.dropWhile Char.isDigit
  if ds.isEmpty then none
  else
    match rest with
    | '.' :: _ => none
    | 'e' :: _ => none
    | 'E' :: _ => none
    | _ =>
        let n : Nat := ds.foldl (fun total d => 10 * total + (d.toNat - 48)) 0
        some (if neg then -(n : Int) else (n : Int), rest)

mutual
/-- Fuelled JSON value parser modelling `JSON.parse`. -/
def parseValue : Nat → List Char → Option (Json × List Char)
  | 0, _ => none
  | fuel + 1, s =>
    match skipWs s with
    | 't' :: 'r' :: 'u' :: 'e' :: rest => some (.bool true, rest)
    | 'f' :: 'a' :: 'l' :: 's' :: 'e' :: rest => some (.bool false, rest)
    | 'n' :: 'u' :: 'l' :: 'l' :: rest => some (.null, rest)
    | '"' :: rest => (parseStringBody rest).map (fun p => (.str (String.mk p.1), p.2))
    | '[' :: rest =>
        (match skipWs rest with
         | ']' :: r2 => some (.arr [], r2)
         | r2 => (parseElems fuel r2).map (fun p => (.arr p.1, p.2)))
    | '\x7b' :: rest =>
        (match skipWs rest with
         | '\x7d' :: r2 => some (.obj [], r2)
         | r2 => (parseFields fuel r2).map (fun p => (.obj p.1, p.2)))
    | c :: rest => (parseIntToken (c :: rest)).map (fun p => (.num p.1, p.2))
    | [] => none

/-- Fuelled parser for the elements of a JSON array after `[`. -/
def parseElems : Nat → List Char → Option (List Json × List Char)
  | 0, _ => none
  | fuel + 1, s => do
      let (v, r) ← parseValue fuel s
      match skipWs r with
      | ',' :: r2 => do
          let (vs, r3) ← parseElems fuel r2
          some (v :: vs, r3)
      | ']' :: r2 => some ([v], r2)
      | _ => none

/-- Fuelled parser for the fields of a JSON object after the opening brace. -/
def parseFields : Nat → List Char → Option (List (String × Json) × List Char)
  | 0, _ => none
  | fuel + 1, s =>
    match skipWs s with
    | '"' :: r => do
        let (k, r1) ← parseStringBody r
        match skipWs r1 with
        | ':' :: r2 => do
            let (v, r3) ← parseValue fuel r2
            (match skipWs r3 with
             | ',' :: r4 => do
                 let (fs, r5) ← parseFields fuel r4
                 some ((String.mk k, v) :: fs, r5)
             | '\x7d' :: r4 => some ([(String.mk k, v)], r4)
             | _ => none)
        | _ => none
    | _ => none
end

/-- Model of `JSON.parse`: parse one value and require that only whitespace
remains. -/
def parseJson (s : List Char) : Option Json :=
  match parseValue (s.length + 1) s with
  | some (v, rest) => if skipWs rest = [] then some v else none
  | none => none

/-- Embeds `content.match(/\x7b[\s\S]*\x7d/)`: the leftmost, greedy match
runs from the first opening brace to the last closing brace of the whole
text (`none` when no opening brace is followed by a closing brace). -/
def extractJsonSubstring (content : List Char) : Option (List Char) :=
  let t := content.dropWhile (fun c => c != openBrace)
  let r := (t.reverse.dropWhile (fun c => c != closeBrace)).reverse
  if r.isEmpty then none else some r

/-- Scan for the close of the first balanced-brace group; `depth` counts the
braces currently open and `acc` the characters consumed. -/
def scanBalanced : List Char → Nat → List Char → Option (List Char)
  | [], _, _ => none
  | c :: rest, depth, acc =>
      if c = openBrace then scanBalanced rest (depth + 1) (acc ++ [c])
      else if c = closeBrace then
        match depth with
        | 0 => none
        | 1 => some (acc ++ [c])
        | d + 2 => scanBalanced rest (d + 1) (acc ++ [c])
      else scanBalanced rest depth (acc ++ [c])

/-- The extraction the spec describes, stated from its words for comparison
with `extractJsonSubstring`: the first balanced-brace substring of the
content (from the first opening brace to its matching closing brace). -/
def specFirstBalancedSubstring (content : List Char) : Option (List Char) :=
  scanBalanced (content.dropWhile (fun c => c != openBrace)) 0 []

/-- Property read `parsed[k]` on a parse result: JS objects keep the last
of duplicate keys; reads on non-objects yield `undefined` (`null` cannot
reach this point because the extracted text always starts with a brace). -/
def jsGet (j : Json) (k : String) : Option Json :=
  match j with
  | .obj fs => ((fs.reverse.find? (fun p => p.1 = k)).map (fun p => p.2))
  | _ => none

/-- `String(v || dflt)`: a truthy value is stringified, otherwise the
default is used. -/
def jsStringOrDefault (v : Option Json) (dflt : String) : String :=
  match v with
  | some j => if jsTruthy (some j) then jsStringOfJson j else dflt
  | none => dflt

/-- The verdict construction both adapters perform on the parsed object:
`Boolean(parsed.include)`, `String(parsed.reason || 'No reason provided')`,
`String(parsed.criterion || 'No criterion specified')`. -/
def coerceVerdict (j : Json) : Verdict :=
  { incl := jsTruthy (jsGet j "include")
    reason := jsStringOrDefault (jsGet j "reason") "No reason provided"
    criterion := jsStringOrDefault (jsGet j "criterion") "No criterion specified" }

/-- The shared response-parsing pipeline of both adapters: extract the
regex match (throwing the malformed-response error when there is none),
`JSON.parse` it (a parse failure throws), and coerce the fields. -/
def parseBackendResponse (noJsonMsg : String) (content : List Char) : Except String Verdict :=
  match extractJsonSubstring content with
  | none => .error noJsonMsg
  | some s =>
      match parseJson s with
      | none => .error "SyntaxError: JSON.parse"
      | some j => .ok (coerceVerdict j)

/-- The response-parsing slice of `classifyWithOllama`. -/
def classifyWithOllamaParse (content : List Char) : Except String Verdict :=
  parseBackendResponse "Invalid response format from Ollama" content

/-- The response-parsing slice of `classifyWithDeepSeek`. -/
def classifyWithDeepSeekParse (content : List Char) : Except String Verdict :=
  parseBackendResponse "Invalid response format from DeepSeek" content

/-- The pipeline the spec describes (first balanced-brace substring, then
parse), stated for comparison in the refutation of the extraction claim. -/
def specBalancedVerdict (content : List Char) : Except String Verdict :=
  match specFirstBalancedSubstring content with
  | none => .error "Invalid response format"
  | some s =>
      match parseJson s with
      | none => .error "SyntaxError: JSON.parse"
      | some j => .ok (coerceVerdict j)

/-! ## Model listing filter (`src/app/api/ollama/models/route.ts`) -/

/-- One upstream model entry: its name and `details?.family?` (optional
chaining makes an absent family `undefined`). -/
structure OllamaModelEntry where
  model : String
  family : Option String
deriving DecidableEq

/-- Substring containment, modelling JS `String.prototype.includes`. -/
def containsSeq (needle hay : List Char) : Bool :=
  hay.tails.any (fun t => needle.isPrefixOf t)

/-- The embedding-model test of the models route:
`model.model.toLowerCase().includes('embed') ||
 model.details?.family?.toLowerCase() === 'nomic-bert'`. -/
def isEmbeddingModel (m : OllamaModelEntry) : Bool :=
  containsSeq "embed".data (jsToLower m.model).data ||
    (match m.family with
     | some f => jsToLower f = "nomic-bert"
     | none => false)

/-- The filter applied by the `GET` handler before returning the model
list. -/
def filterTextModels (models : List OllamaModelEntry) : List OllamaModelEntry :=
  models.filter (fun m => !isEmbeddingModel m)

/-! ## Import classifier (`handleFileChange` and the two ingestion paths) -/

/-- The key lower-casing `reduce` applied to every parsed row before any
column check. -/
def lowercaseRow (r : Row) : Row := r.map (fun p => (jsToLower p.1, p.2))

/-- The marker columns `handleFileChange` probes on the first row to decide
that a file holds previously classified results. -/
def resultMarkerColumns : List String :=
  ["classification", "reason", "criterion",
   "ai_include", "ai_reason", "ai_criterion",
   "manual_include", "manual_reason", "manual_criterion",
   "final_include", "final_reason", "final_criterion"]

/-- Embeds the `hasClassificationData` test of `handleFileChange`. -/
def hasClassificationData (rows : List Row) : Bool :=
  match rows with
  | [] => false
  | r :: _ => resultMarkerColumns.any (fun k => hasKey r k)

/-- Import failures surfaced as destructive toasts: the empty-file error and
the two missing-column errors (`handleLoadPreviousResults` names the columns
that are absent, `handleLoadNewArticles` uses one fixed message naming both
required columns). -/
inductive ImportError where
  | emptyInput
  | missingColumns (cols : List String)
  | missingTitleAbstract
deriving DecidableEq

/-- A JS `a || b || ... || ''` chain over row cells: the first truthy value
(stringified — cells used by the claims are strings), else the empty
string. -/
def jsOrChainString (vs : List (Option Json)) : String :=
  match vs with
  | [] => ""
  | v :: rest => if jsTruthy v then jsStringOfJson (v.getD .null) else jsOrChainString rest

/-- The article constructed from one imported row (shared by both ingestion
paths): `title: row.title || ''`, `abstract: row.abstract || ''`,
`doi: row.doi || row.DOI || ''` (the `DOI` lookup is dead after
lower-casing), `source: row.source || row.journal || row.publication ||
row.venue || ''`. -/
def rowToArticle (r : Row) : Article :=
  { title := jsOrChainString [getVal r "title"]
    abstract := jsOrChainString [getVal r "abstract"]
    doi := jsOrChainString [getVal r "doi", getVal r "DOI"]
    source := jsOrChainString [getVal r "source", getVal r "journal",
                               getVal r "publication", getVal r "venue"] }

/-- Embeds `handleLoadNewArticles`: a non-empty input whose first row lacks
`title` or `abstract` is rejected; otherwise rows are mapped to articles and
those with an empty title or abstract are dropped (an empty input yields the
empty article list without any error). -/
def handleLoadNewArticles (rows : List Row) : Except ImportError (List Article) :=
  match rows with
  | [] => .ok []
  | r :: _ =>
      if !hasKey r "title" || !hasKey r "abstract" then .error .missingTitleAbstract
      else .ok ((rows.map rowToArticle).filter
                  (fun a => decide (a.title ≠ "" ∧ a.abstract ≠ "")))

/-- The default reason/criterion of `handleLoadPreviousResults`. -/
def loadedDefault : String := "Loaded from previous results"

/-- `row.hasOwnProperty(k) && row[k] !== null && row[k] !== ''`. -/
def presentNonEmpty (v : Option Json) : Bool :=
  match v with
  | none => false
  | some .null => false
  | some (.str s) => !(s == "")
  | some _ => true

/-- The include-flag comparison of the previous-results loader:
`v === 'Include' || v === true || v === 'true'` (the legacy branches compare
against the same three values). -/
def parseIncludeFlag : Option Json → Bool
  | some (.str s) => (s == "Include") || (s == "true")
  | some (.bool b) => b
  | _ => false

/-- The schema-priority verdict resolution of `handleLoadPreviousResults`:
new-format `classification` first, then `final_*`, `manual_*`, `ai_*`;
a row matching no schema defaults to exclude with the placeholder reason. -/
def resolveVerdict (r : Row) : Verdict :=
  if presentNonEmpty (getVal r "classification") then
    { incl := parseIncludeFlag (getVal r "classification")
      reason := jsStringOrDefault (getVal r "reason") loadedDefault
      criterion := jsStringOrDefault (getVal r "criterion") loadedDefault }
  else if presentNonEmpty (getVal r "final_include") then
    { incl := parseIncludeFlag (getVal r "final_include")
      reason := jsStringOrDefault (getVal r "final_reason") loadedDefault
      criterion := jsStringOrDefault (getVal r "final_criterion") loadedDefault }
  else if presentNonEmpty (getVal r "manual_include") then
    { incl := parseIncludeFlag (getVal r "manual_include")
      reason := jsStringOrDefault (getVal r "manual_reason") loadedDefault
      criterion := jsStringOrDefault (getVal r "manual_criterion") loadedDefault }
  else if presentNonEmpty (getVal r "ai_include") then
    { incl := parseIncludeFlag (getVal r "ai_include")
      reason := jsStringOrDefault (getVal r "ai_reason") loadedDefault
      criterion := jsStringOrDefault (getVal r "ai_criterion") loadedDefault }
  else
    { incl := false, reason := loadedDefault, criterion := loadedDefault }

/-- One previously classified article recovered from a row. -/
def resolveRow (r : Row) : ClassifiedArticle :=
  { toArticle := rowToArticle r
    classification := resolveVerdict r
    originalData := some r }

/-- The criteria set recovered from a previous-results file. -/
structure Criteria where
  inclusion : List String
  exclusion : List String
deriving DecidableEq

/-- `v.split('|').filter(c => c.trim())`. -/
def splitCriteria (v : Option Json) : List String :=
  ((jsStringOfJson (v.getD .null)).splitOn "|").filter (fun c => !(jsTrim c == ""))

/-- The criteria recovery of `handleLoadPreviousResults`: both pipe-separated
columns must exist on the first row and both values must be truthy. -/
def recoverCriteria (rows : List Row) : Option Criteria :=
  match rows with
  | [] => none
  | r :: _ =>
      if hasKey r "inclusion_criteria" && hasKey r "exclusion_criteria" then
        if jsTruthy (getVal r "inclusion_criteria") && jsTruthy (getVal r "exclusion_criteria") then
          some { inclusion := splitCriteria (getVal r "inclusion_criteria")
                 exclusion := splitCriteria (getVal r "exclusion_criteria") }
        else none
      else none

/-- The required columns checked by the previous-results loader. -/
def requiredColumns : List String := ["title", "abstract"]

/-- Embeds `handleLoadPreviousResults`: empty file error, missing-columns
error naming the absent required columns, then verdict resolution per row
(rows with an empty title or abstract are dropped) plus criteria
recovery. -/
def handleLoadPreviousResults (rows : List Row) :
    Except ImportError (List ClassifiedArticle × Option Criteria) :=
  match rows with
  | [] => .error .emptyInput
  | r :: _ =>
      let missing := requiredColumns.filter (fun c => !hasKey r c)
      if missing.isEmpty then
        .ok ((rows.map resolveRow).filter
               (fun a => decide (a.title ≠ "" ∧ a.abstract ≠ "")),
             recoverCriteria rows)
      else .error (.missingColumns missing)

/-- The observable outcome of one `handleFileChange` import. -/
inductive ImportOutcome where
  | freshOk (articles : List Article)
  | freshError (e : ImportError)
  | prevOk (results : List ClassifiedArticle) (criteria : Option Criteria)
  | prevError (e : ImportError)

/-- Embeds the routing of `handleFileChange`: lower-case all keys, then send
the rows to the previous-results loader exactly when the first row carries a
marker column, and to the fresh-records loader otherwise. -/
def importPipeline (rawRows : List Row) : ImportOutcome :=
  let rows := rawRows.map lowercaseRow
  if hasClassificationData rows then
    match handleLoadPreviousResults rows with
    | .ok (cas, crit) => .prevOk cas crit
    | .error e => .prevError e
  else
    match handleLoadNewArticles rows with
    | .ok as => .freshOk as
    | .error e => .freshError e

/-- Whether an import outcome came from the previous-results path. -/
def routedToPreviousResults : ImportOutcome → Bool
  | .prevOk _ _ => true
  | .prevError _ => true
  | _ => false

/-! ## Export (`exportToXlsx` in `src/lib/csv.ts`) -/

/-- The identity match used against the pool of original rows:
`original.title === article.title && original.abstract ===
article.abstract`. -/
def rowMatchesArticle (r : Row) (a : Article) : Bool :=
  (match getVal r "title" with
   | some (.str s) => s == a.title
   | _ => false) &&
  (match getVal r "abstract" with
   | some (.str s) => s == a.abstract
   | _ => false)

/-- One export row: the original row's columns
(`article.originalData || originalData?.find(...) || \x7b\x7d`) with
`classification`, `reason` and `criterion` assigned on top. -/
def exportRow (a : ClassifiedArticle) (pool : List Row) : Row :=
  let orig : Row :=
    match a.originalData with
    | some r => r
    | none => (pool.find? (fun r => rowMatchesArticle r a.toArticle)).getD []
  orig ++ [("classification",
            Json.str (if a.classification.incl then "Include" else "Exclude")),
           ("reason", Json.str a.classification.reason),
           ("criterion", Json.str a.classification.criterion)]

/-- The data-preparation map of `exportToXlsx` (the worksheet serialization
itself is an external collaborator). -/
def exportToXlsxRows (cas : List ClassifiedArticle) (pool : List Row) : List Row :=
  cas.map (fun a => exportRow a pool)

/-! ## Batch orchestrator (`runAnalysisForArticles` / `processBatch`)

Two embeddings are given.  `processBatchRun` is the deterministic run
function under the in-submission-order completion schedule with no
cancellation (waves of `CONCURRENT_REQUESTS` articles, each wave fully
settled before the next `splice`); it also records the dispatch trace — the
articles on which the backend was invoked, in order.  `OrchStep` is a
small-step relation covering all completion interleavings and cancellation
timings. -/

/-- The fixed concurrency window of the page component. -/
def CONCURRENT_REQUESTS : Nat := 2

/-- `originalArticleData.find(original => original.title === article.title
&& original.abstract === article.abstract)`. -/
def findOriginalRow (pool : List Row) (a : Article) : Option Row :=
  pool.find? (fun r => rowMatchesArticle r a)

/-- The classified article appended on task success. -/
def mkClassified (pool : List Row) (a : Article) (v : Verdict) : ClassifiedArticle :=
  ⟨a, v, findOriginalRow pool a⟩

/-- One settled task: success appends the classified article and increments
the processed counter; a classification error is reported and only
increments the counter (the record is skipped). -/
def settleTask (backend : Article → Except String Verdict) (pool : List Row)
    (st : List ClassifiedArticle × Nat) (a : Article) : List ClassifiedArticle × Nat :=
  match backend a with
  | .ok v => (st.1 ++ [mkClassified pool a v], st.2 + 1)
  | .error _ => (st.1, st.2 + 1)

/-- `processBatch` under the deterministic schedule: each recursion step
splices `CONCURRENT_REQUESTS = 2` articles off the queue, settles them, and
recurses on the remainder.  Returns the accumulated results, the processed
counter and the dispatch trace. -/
def processBatchRun (backend : Article → Except String Verdict) (pool : List Row) :
    List Article → List ClassifiedArticle → Nat →
    List ClassifiedArticle × Nat × List Article
  | [], acc, n => (acc, n, [])
  | [a], acc, n =>
      let st := settleTask backend pool (acc, n) a
      (st.1, st.2, [a])
  | a :: b :: rest, acc, n =>
      let st1 := settleTask backend pool (acc, n) a
      let st2 := settleTask backend pool st1 b
      let r := processBatchRun backend pool rest st2.1 st2.2
      (r.1, r.2.1, a :: b :: r.2.2)

/-- The classified articles a run appends for a queue (its successes, in
order). -/
def runSuccesses (backend : Article → Except String Verdict) (pool : List Row)
    (queue : List Article) : List ClassifiedArticle :=
  queue.filterMap (fun a =>
    match backend a with
    | .ok v => some (mkClassified pool a v)
    | .error _ => none)

/-- The filter of `handleContinueAnalysis`: the articles whose
`(title, abstract)` pair does not occur among the already classified
records. -/
def unclassifiedArticles (articles : List Article)
    (classified : List ClassifiedArticle) : List Article :=
  articles.filter (fun a =>
    !(classified.any (fun c => c.title == a.title && c.abstract == a.abstract)))

/-- `runAnalysisForArticles` under the deterministic schedule: the result
accumulator is seeded with the existing classified articles and the
processed counter restarts at zero. -/
def runAnalysisForArticles (backend : Article → Except String Verdict) (pool : List Row)
    (classified : List ClassifiedArticle) (toAnalyze : List Article) :
    List ClassifiedArticle × Nat × List Article :=
  processBatchRun backend pool toAnalyze classified 0

/-- Embeds `handleContinueAnalysis`: compute the unclassified remainder; when
none remains no run is started, otherwise the run is invoked on exactly that
remainder with the existing results kept. -/
def handleContinueAnalysis (backend : Article → Except String Verdict) (pool : List Row)
    (articles : List Article) (classified : List ClassifiedArticle) :
    List ClassifiedArticle × Nat × List Article :=
  let unclassified := unclassifiedArticles articles classified
  if unclassified.isEmpty then (classified, 0, [])
  else runAnalysisForArticles backend pool classified unclassified

/-- The orchestrator state of one run: the queue still to splice, the tasks
in flight, the accumulated results, the processed counter and the
cancellation flag (`isCancelledRef`). -/
structure RunState where
  pending : List Article
  inFlight : List Article
  completed : List ClassifiedArticle
  processed : Nat
  cancelled : Bool

/-- The state at the start of `runAnalysisForArticles`: the flag is reset,
the counter starts at zero and the accumulator is seeded with the existing
classified articles. -/
def initRunState (seed : List ClassifiedArticle) (toAnalyze : List Article) : RunState :=
  { pending := toAnalyze, inFlight := [], completed := seed,
    processed := 0, cancelled := false }

/-- Small-step semantics of `processBatch` covering every completion order
and cancellation timing.  `dispatch` is the `splice` of the next wave — it
fires only once the previous wave has fully settled (`Promise.all`) and the
cancellation re-check has passed.  A task settling while the flag is down
appends its result (success) or is skipped (error), and increments the
counter either way (`finally`); a task settling while the flag is up is
discarded entirely.  `cancel` is `handleInterrupt`. -/
inductive OrchStep (backend : Article → Except String Verdict) (pool : List Row) :
    RunState → RunState → Prop
  | dispatch (s : RunState) (hf : s.inFlight = []) (hp : s.pending ≠ [])
      (hc : s.cancelled = false) :
      OrchStep backend pool s
        { s with inFlight := s.pending.take CONCURRENT_REQUESTS
                 pending := s.pending.drop CONCURRENT_REQUESTS }
  | settleOk (s : RunState) (a : Article) (v : Verdict)
      (ha : a ∈ s.inFlight) (hb : backend a = .ok v) (hc : s.cancelled = false) :
      OrchStep backend pool s
        { s with inFlight := s.inFlight.erase a
                 completed := s.completed ++ [mkClassified pool a v]
                 processed := s.processed + 1 }
  | settleErr (s : RunState) (a : Article) (e : String)
      (ha : a ∈ s.inFlight) (hb : backend a = .error e) (hc : s.cancelled = false) :
      OrchStep backend pool s
        { s with inFlight := s.inFlight.erase a
                 processed := s.processed + 1 }
  | settleCancelled (s : RunState) (a : Article)
      (ha : a ∈ s.inFlight) (hc : s.cancelled = true) :
      OrchStep backend pool s { s with inFlight := s.inFlight.erase a }
  | cancel (s : RunState) :
      OrchStep backend pool s { s with cancelled := true }

/-- Reachability along orchestrator steps. -/
def OrchReachable (backend : Article → Except String Verdict) (pool : List Row) :
    RunState → RunState → Prop :=
  Relation.ReflTransGen (OrchStep backend pool)

/-! # Theorems -/

/-! ## Generic helpers about rows -/

theorem hasKey_iff_getVal (r : Row) (k : String) :
    hasKey r k = true ↔ ∃ v, getVal r k = some v := by
  unfold hasKey getVal
  rw [List.find?_isSome]
  constructor
  · rintro ⟨p, hp, hpk⟩
    have : ((r.reverse.find? (fun q => q.1 = k)).isSome) = true := by
      rw [List.find?_isSome]
      exact ⟨p, List.mem_reverse.mpr hp, hpk⟩
    rcases Option.isSome_iff_exists.mp this with ⟨q, hq⟩
    exact ⟨q.2, by rw [hq]; rfl⟩
  · rintro ⟨v, hv⟩
    rcases Option.map_eq_some'.mp hv with ⟨q, hq, -⟩
    have hmem := List.mem_of_find?_eq_some hq
    have hpk := List.find?_some hq
    exact ⟨q, List.mem_reverse.mp hmem, hpk⟩

theorem getVal_append (r app : Row) (k : String) :
    getVal (r ++ app) k =
      match getVal app k with
      | some v => some v
      | none => getVal r k := by
  unfold getVal
  rw [List.reverse_append, List.find?_append]
  cases h : List.find? (fun q => q.1 = k) app.reverse <;> simp [h]

/-! ## C10: embedding models are filtered from the model listing -/

/-- C10: every model in the list returned by the models route has a name that
does not contain the substring "embed" case-insensitively and a
`details.family` that is not "nomic-bert". -/
theorem claim_C10 (models : List OllamaModelEntry) (m : OllamaModelEntry)
    (hm : m ∈ filterTextModels models) :
    containsSeq "embed".data (jsToLower m.model).data = false ∧
      (∀ f, m.family = some f → jsToLower f ≠ "nomic-bert") ∧
      m.family ≠ some "nomic-bert" := by
  rw [filterTextModels, List.mem_filter] at hm
  have h : isEmbeddingModel m = false := by
    have h2 := hm.2
    cases h' : isEmbeddingModel m
    · rfl
    · rw [h'] at h2; simp at h2
  unfold isEmbeddingModel at h
  rcases Bool.or_eq_false_iff.mp h with ⟨h1, h2⟩
  refine ⟨h1, ?_, ?_⟩
  · intro f hf
    rw [hf] at h2
    simpa using h2
  · intro hf
    rw [hf] at h2
    simp at h2
    exact h2 (by decide)

/-- Witness for C10 at a concrete model list. -/
theorem claim_C10_witness :
    (⟨"llama3:8b", some "llama"⟩ : OllamaModelEntry) ∈
        filterTextModels [⟨"llama3:8b", some "llama"⟩, ⟨"nomic-embed-text", some "nomic-bert"⟩] ∧
      (containsSeq "embed".data (jsToLower "llama3:8b").data = false ∧
        (∀ f, (some "llama" : Option String) = some f → jsToLower f ≠ "nomic-bert") ∧
        (some "llama" : Option String) ≠ some "nomic-bert") :=
  ⟨by decide,
   claim_C10 [⟨"llama3:8b", some "llama"⟩, ⟨"nomic-embed-text", some "nomic-bert"⟩]
     ⟨"llama3:8b", some "llama"⟩ (by decide)⟩

/-! ## C7: import routing determinism -/

theorem hasKey_lowercaseRow (r : Row) (k : String) :
    hasKey (lowercaseRow r) k = true ↔ ∃ p ∈ r, jsToLower p.1 = k := by
  unfold hasKey lowercaseRow
  rw [List.find?_isSome]
  constructor
  · rintro ⟨q, hq, hqk⟩
    rcases List.mem_map.mp hq with ⟨p, hp, hpq⟩
    refine ⟨p, hp, ?_⟩
    have : q.1 = k := by simpa using hqk
    rw [← hpq] at this
    exact this
  · rintro ⟨p, hp, hpk⟩
    exact ⟨(jsToLower p.1, p.2), List.mem_map.mpr ⟨p, hp, rfl⟩, by simpa using hpk⟩

theorem routed_eq_hasClassificationData (rawRows : List Row) :
    routedToPreviousResults (importPipeline rawRows) =
      hasClassificationData (rawRows.map lowercaseRow) := by
  unfold importPipeline
  cases h : hasClassificationData (rawRows.map lowercaseRow)
  · simp only [h, Bool.false_eq_true, if_false]
    cases hr : handleLoadNewArticles (rawRows.map lowercaseRow) <;> simp [routedToPreviousResults]
  · simp only [h, if_true]
    cases hr : handleLoadPreviousResults (rawRows.map lowercaseRow)
    · simp [routedToPreviousResults]
    · rename_i val
      cases val
      simp [routedToPreviousResults]

theorem hasClassificationData_iff (rawRows : List Row) :
    hasClassificationData (rawRows.map lowercaseRow) = true ↔
      ∃ r rest, rawRows = r :: rest ∧ ∃ p ∈ r, jsToLower p.1 ∈ resultMarkerColumns := by
  cases rawRows with
  | nil => simp [hasClassificationData]
  | cons r rest =>
      rw [List.map_cons]
      show (resultMarkerColumns.any (fun k => hasKey (lowercaseRow r) k)) = true ↔ _
      rw [List.any_eq_true]
      constructor
      · rintro ⟨k, hk, hkey⟩
        rcases (hasKey_lowercaseRow r k).mp hkey with ⟨p, hp, hpk⟩
        exact ⟨r, rest, rfl, p, hp, by rw [hpk]; exact hk⟩
      · rintro ⟨r', rest', heq, p, hp, hpk⟩
        cases heq
        exact ⟨jsToLower p.1, hpk, (hasKey_lowercaseRow r _).mpr ⟨p, hp, rfl⟩⟩

/-- C7: a parsed input is routed to the previous-results path exactly when
its first row carries at least one marker column (names case-folded), and a
first row carrying a `classification` column always routes there, never to
the fresh-records path. -/
theorem claim_C7 (rawRows : List Row) :
    (routedToPreviousResults (importPipeline rawRows) = true ↔
      ∃ r rest, rawRows = r :: rest ∧ ∃ p ∈ r, jsToLower p.1 ∈ resultMarkerColumns) ∧
    (∀ r rest, rawRows = r :: rest → (∃ p ∈ r, jsToLower p.1 = "classification") →
      routedToPreviousResults (importPipeline rawRows) = true) := by
  constructor
  · rw [routed_eq_hasClassificationData]
    exact hasClassificationData_iff rawRows
  · rintro r rest heq ⟨p, hp, hpk⟩
    rw [routed_eq_hasClassificationData]
    exact (hasClassificationData_iff rawRows).mpr
      ⟨r, rest, heq, p, hp, by rw [hpk]; simp [resultMarkerColumns]⟩

/-- Witness for C7: a file with a `Classification` column and `title` and
`abstract` columns is routed to the previous-results path. -/
theorem claim_C7_witness :
    routedToPreviousResults (importPipeline
      [[("Classification", Json.str "Include"), ("title", Json.str "t"),
        ("abstract", Json.str "a")]]) = true :=
  (claim_C7 _).2 _ _ rfl ⟨("Classification", Json.str "Include"), by simp, by decide⟩

/-! ## C8: import error contract -/

/-- C8 counterexample: on a zero-row input the fresh-records path does not
fail with an empty-input error — it succeeds with an empty article list
(only the previous-results path has the empty-file check). -/
theorem claim_C8_counterexample :
    handleLoadNewArticles [] = .ok [] ∧
      importPipeline [] = .freshOk [] ∧
      handleLoadNewArticles [] ≠ .error .emptyInput :=
  ⟨rfl, rfl, by decide⟩

/-- C8 (amended): the previous-results path fails with the empty-input error
on a zero-row input while the fresh-records path returns the empty list
without error; when the first row lacks `title` or `abstract`, the
previous-results path fails naming exactly the missing required columns and
the fresh-records path fails with its fixed missing-columns error. -/
theorem claim_C8_amended :
    handleLoadPreviousResults [] = .error .emptyInput ∧
    handleLoadNewArticles [] = .ok [] ∧
    (∀ (r : Row) (rest : List Row),
      requiredColumns.filter (fun c => !hasKey r c) ≠ [] →
      handleLoadPreviousResults (r :: rest) =
          .error (.missingColumns (requiredColumns.filter (fun c => !hasKey r c))) ∧
        handleLoadNewArticles (r :: rest) = .error .missingTitleAbstract) := by
  refine ⟨rfl, rfl, ?_⟩
  intro r rest hmiss
  have hie : (requiredColumns.filter (fun c => !hasKey r c)).isEmpty = false := by
    cases hh : requiredColumns.filter (fun c => !hasKey r c) with
    | nil => exact absurd hh hmiss
    | cons x xs => rfl
  constructor
  · show (if (requiredColumns.filter (fun c => !hasKey r c)).isEmpty then _ else _) = _
    rw [hie]
    simp
  · have hor : (!hasKey r "title" || !hasKey r "abstract") = true := by
      cases ht : hasKey r "title" <;> cases ha : hasKey r "abstract" <;>
        simp_all [requiredColumns]
    show (if !hasKey r "title" || !hasKey r "abstract" then _ else _) = _
    rw [hor]
    simp

/-- Witness for C8 at a row lacking the `abstract` column. -/
theorem claim_C8_amended_witness :
    handleLoadPreviousResults [[("title", Json.str "t")]] =
        .error (.missingColumns ["abstract"]) ∧
      handleLoadNewArticles [[("title", Json.str "t")]] = .error .missingTitleAbstract :=
  claim_C8_amended.2.2 [("title", Json.str "t")] [] (by decide)

/-! ## C5: aggregation correctness -/

theorem length_filter_partition {α : Type} (p : α → Bool) (l : List α) :
    (l.filter p).length + (l.filter (fun a => !p a)).length = l.length := by
  have h := (List.filter_append_perm p l).length_eq
  simpa using h

theorem sumTotals_upsert (k : String) (i : Bool) (l : List CriterionStat) :
    ((upsertStat k i l).map (fun e => e.total)).sum =
      (l.map (fun e => e.total)).sum + 1 := by
  induction l with
  | nil => simp [upsertStat]
  | cons e rest ih =>
      by_cases h : e.criterion = k
      · simp [upsertStat, h, bumpStat]
        omega
      · simp [upsertStat, h, ih]
        omega

theorem statsFoldAux_sum (cas : List ClassifiedArticle) :
    ∀ init : List CriterionStat,
      ((cas.foldl statsStep init).map (fun e => e.total)).sum =
        (init.map (fun e => e.total)).sum +
          cas.countP (fun a => !(jsTrim a.classification.criterion == "")) := by
  induction cas with
  | nil => intro init; simp
  | cons a rest ih =>
      intro init
      rw [List.foldl_cons, List.countP_cons, ih]
      by_cases h : jsTrim a.classification.criterion = ""
      · simp [statsStep, h]
      · simp [statsStep, h, sumTotals_upsert]
        omega

theorem upsertStat_keys (k : String) (i : Bool) (l : List CriterionStat) :
    (upsertStat k i l).map (fun e => e.criterion) =
      if k ∈ l.map (fun e => e.criterion) then l.map (fun e => e.criterion)
      else l.map (fun e => e.criterion) ++ [k] := by
  induction l with
  | nil => simp [upsertStat]
  | cons e rest ih =>
      by_cases h : e.criterion = k
      · simp [upsertStat, h, bumpStat]
      · have hke : ¬(k = e.criterion) := fun hk => h hk.symm
        by_cases hk : k ∈ rest.map (fun e => e.criterion)
        · simp [upsertStat, h, ih, hk, hke]
        · simp [upsertStat, h, ih, hk, hke]

theorem mem_upsertStat {k : String} {i : Bool} :
    ∀ {l : List CriterionStat}, (l.map (fun e => e.criterion)).Nodup →
    ∀ {e' : CriterionStat}, e' ∈ upsertStat k i l →
      (e' ∈ l ∧ e'.criterion ≠ k) ∨
      (∃ e ∈ l, e.criterion = k ∧ e' = bumpStat e i) ∨
      (e' = ⟨k, if i then 1 else 0, if i then 0 else 1, 1⟩ ∧ ∀ e ∈ l, e.criterion ≠ k) := by
  intro l
  induction l with
  | nil =>
      intro _ e' he'
      right; right
      refine ⟨by simpa [upsertStat] using he', by simp⟩
  | cons e rest ih =>
      intro hnd e' he'
      rw [List.map_cons, List.nodup_cons] at hnd
      obtain ⟨hnotin, hndr⟩ := hnd
      by_cases hek : e.criterion = k
      · rw [upsertStat, if_pos hek] at he'
        rcases List.mem_cons.mp he' with heq | hmem
        · right; left
          exact ⟨e, List.mem_cons_self e rest, hek, heq⟩
        · left
          refine ⟨List.mem_cons_of_mem e hmem, fun hk => ?_⟩
          apply hnotin
          rw [hek, ← hk]
          exact List.mem_map_of_mem (fun x => x.criterion) hmem
      · rw [upsertStat, if_neg hek] at he'
        rcases List.mem_cons.mp he' with heq | hmem
        · left
          refine ⟨by rw [heq]; exact List.mem_cons_self e rest, by rw [heq]; exact hek⟩
        · rcases ih hndr hmem with ⟨hm, hne⟩ | ⟨e2, hm, hc, heq⟩ | ⟨heq, hall⟩
          · exact Or.inl ⟨List.mem_cons_of_mem e hm, hne⟩
          · exact Or.inr (Or.inl ⟨e2, List.mem_cons_of_mem e hm, hc, heq⟩)
          · refine Or.inr (Or.inr ⟨heq, fun x hx => ?_⟩)
            rcases List.mem_cons.mp hx with rfl | hx'
            · exact hek
            · exact hall x hx'

theorem statCorrect_append_of_not_match {P : List ClassifiedArticle} {e : CriterionStat}
    (h : statCorrect P e) (a : ClassifiedArticle)
    (hne : critMatch e.criterion a = false) : statCorrect (P ++ [a]) e := by
  obtain ⟨h0, h1, h2, h3⟩ := h
  refine ⟨h0, ?_, ?_, ?_⟩ <;>
    rw [List.countP_append] <;>
    simp [List.countP_cons, hne, h1, h2, h3]

theorem statCorrect_append_of_match {P : List ClassifiedArticle} {e : CriterionStat}
    (h : statCorrect P e) (a : ClassifiedArticle)
    (hmatch : critMatch e.criterion a = true) :
    statCorrect (P ++ [a]) (bumpStat e a.classification.incl) := by
  obtain ⟨h0, h1, h2, h3⟩ := h
  have hcrit : (bumpStat e a.classification.incl).criterion = e.criterion := rfl
  refine ⟨by rw [hcrit]; exact h0, ?_, ?_, ?_⟩ <;>
    rw [hcrit, List.countP_append] <;>
    cases hi : a.classification.incl <;>
    simp [bumpStat, List.countP_cons, hmatch, hi, h1, h2, h3]

theorem statCorrect_new {P : List ClassifiedArticle} {k : String} (a : ClassifiedArticle)
    (hk : k ≠ "") (hmatch : critMatch k a = true)
    (hzero : ∀ a' ∈ P, critMatch k a' = false) :
    statCorrect (P ++ [a])
      ⟨k, if a.classification.incl then 1 else 0,
          if a.classification.incl then 0 else 1, 1⟩ := by
  have hz : P.countP (critMatch k) = 0 :=
    List.countP_eq_zero.mpr (fun a' ha' => by simp [hzero a' ha'])
  have hzi : P.countP (fun x => critMatch k x && x.classification.incl) = 0 :=
    List.countP_eq_zero.mpr (fun a' ha' => by simp [hzero a' ha'])
  have hze : P.countP (fun x => critMatch k x && !x.classification.incl) = 0 :=
    List.countP_eq_zero.mpr (fun a' ha' => by simp [hzero a' ha'])
  refine ⟨hk, ?_, ?_, ?_⟩ <;>
    rw [List.countP_append] <;>
    cases hi : a.classification.incl <;>
    simp [List.countP_cons, hmatch, hi, hz, hzi, hze]

theorem statsFoldAux_invariant :
    ∀ (cas P : List ClassifiedArticle) (acc : List CriterionStat),
      ((acc.map (fun e => e.criterion)).Nodup) →
      (∀ e ∈ acc, statCorrect P e) →
      (∀ a ∈ P, jsTrim a.classification.criterion ≠ "" →
          jsTrim a.classification.criterion ∈ acc.map (fun e => e.criterion)) →
      (((cas.foldl statsStep acc).map (fun e => e.criterion)).Nodup) ∧
      (∀ e ∈ cas.foldl statsStep acc, statCorrect (P ++ cas) e) ∧
      (∀ a ∈ P ++ cas, jsTrim a.classification.criterion ≠ "" →
          jsTrim a.classification.criterion ∈
            (cas.foldl statsStep acc).map (fun e => e.criterion)) := by
  intro cas
  induction cas with
  | nil =>
      intro P acc hnd hcor hcom
      rw [List.foldl_nil, List.append_nil]
      exact ⟨hnd, hcor, hcom⟩
  | cons a rest ih =>
      intro P acc hnd hcor hcom
      rw [List.foldl_cons]
      by_cases hk : jsTrim a.classification.criterion = ""
      · have hstep : statsStep acc a = acc := by rw [statsStep, if_pos hk]
        rw [hstep]
        have hcor' : ∀ e ∈ acc, statCorrect (P ++ [a]) e := by
          intro e he
          refine statCorrect_append_of_not_match (hcor e he) a ?_
          have h0 := (hcor e he).1
          simp [critMatch, hk]
          exact fun hcontra => h0 hcontra.symm
        have hcom' : ∀ a' ∈ P ++ [a], jsTrim a'.classification.criterion ≠ "" →
            jsTrim a'.classification.criterion ∈ acc.map (fun e => e.criterion) := by
          intro a' ha' hne
          rcases List.mem_append.mp ha' with hp | hsing
          · exact hcom a' hp hne
          · rcases List.mem_singleton.mp hsing with rfl
            exact absurd hk hne
        have := ih (P ++ [a]) acc hnd hcor' hcom'
        rwa [← List.append_cons] at this
      · set k := jsTrim a.classification.criterion with hkdef
        have hstep : statsStep acc a = upsertStat k a.classification.incl acc := by
          rw [statsStep, if_neg hk]
        rw [hstep]
        have hkeys := upsertStat_keys k a.classification.incl acc
        have hnd' : ((upsertStat k a.classification.incl acc).map
            (fun e => e.criterion)).Nodup := by
          rw [hkeys]
          by_cases hmem : k ∈ acc.map (fun e => e.criterion)
          · rwa [if_pos hmem]
          · rw [if_neg hmem]
            rw [List.nodup_append]
            refine ⟨hnd, List.nodup_singleton _, ?_⟩
            intro x hx hxs
            have hxk : x = k := List.mem_singleton.mp hxs
            rw [hxk] at hx
            exact hmem hx
        have hcor' : ∀ e' ∈ upsertStat k a.classification.incl acc,
            statCorrect (P ++ [a]) e' := by
          intro e' he'
          rcases mem_upsertStat hnd he' with ⟨hm, hne⟩ | ⟨e2, hm, hc, heq⟩ | ⟨heq, hall⟩
          · refine statCorrect_append_of_not_match (hcor e' hm) a ?_
            simp [critMatch, ← hkdef]
            exact fun hcontra => hne hcontra.symm
          · rw [heq]
            refine statCorrect_append_of_match (hcor e2 hm) a ?_
            simp [critMatch, ← hkdef, hc]
          · rw [heq]
            refine statCorrect_new a hk ?_ ?_
            · simp [critMatch, ← hkdef]
            · intro a' ha'
              by_contra hcm
              rw [Bool.not_eq_false, critMatch, beq_iff_eq] at hcm
              have hne' : jsTrim a'.classification.criterion ≠ "" := by
                rw [hcm]; exact hk
              have hin := hcom a' ha' hne'
              rw [hcm] at hin
              rcases List.mem_map.mp hin with ⟨e2, he2, hc2⟩
              exact hall e2 he2 hc2
        have hcom' : ∀ a' ∈ P ++ [a], jsTrim a'.classification.criterion ≠ "" →
            jsTrim a'.classification.criterion ∈
              (upsertStat k a.classification.incl acc).map (fun e => e.criterion) := by
          intro a' ha' hne
          rw [hkeys]
          rcases List.mem_append.mp ha' with hp | hsing
          · have hin := hcom a' hp hne
            by_cases hmem : k ∈ acc.map (fun e => e.criterion)
            · rwa [if_pos hmem]
            · rw [if_neg hmem]
              exact List.mem_append_left _ hin
          · rcases List.mem_singleton.mp hsing with rfl
            by_cases hmem : k ∈ acc.map (fun e => e.criterion)
            · rw [if_pos hmem]; exact hmem
            · rw [if_neg hmem]
              exact List.mem_append_right _ (by simp)
        have := ih (P ++ [a]) (upsertStat k a.classification.incl acc) hnd' hcor' hcom'
        rwa [← List.append_cons] at this

/-- C5: for every completed set, included plus excluded equals the number of
completed records; the per-criterion statistics group records by the exact
trimmed criterion string, omit records whose criterion is empty or
whitespace-only, are emitted sorted descending by group total, and the sum
of the per-criterion totals plus the number of empty-criterion records
equals the number of completed records. -/
theorem claim_C5 (cas : List ClassifiedArticle) :
    (classificationCounts cas).included + (classificationCounts cas).excluded = cas.length ∧
    (classificationCounts cas).total = cas.length ∧
    ((criteriaStatistics cas).map (fun e => e.total)).Sorted (· ≥ ·) ∧
    ((criteriaStatistics cas).map (fun e => e.total)).sum
        + cas.countP (fun a => jsTrim a.classification.criterion == "") = cas.length ∧
    ((criteriaStatistics cas).map (fun e => e.criterion)).Nodup ∧
    (∀ e ∈ criteriaStatistics cas, statCorrect cas e) ∧
    (∀ a ∈ cas, jsTrim a.classification.criterion ≠ "" →
        ∃ e ∈ criteriaStatistics cas, e.criterion = jsTrim a.classification.criterion) := by
  have hperm : (criteriaStatistics cas).Perm (statsFold cas) :=
    List.mergeSort_perm (statsFold cas) _
  have hinv := statsFoldAux_invariant cas [] [] (by simp) (by simp) (by simp)
  rw [List.nil_append] at hinv
  obtain ⟨hnd, hcor, hcom⟩ := hinv
  refine ⟨length_filter_partition _ cas, rfl, ?_, ?_, ?_, ?_, ?_⟩
  · have hs := @List.sorted_mergeSort CriterionStat
      (fun a b : CriterionStat => decide (b.total ≤ a.total))
      (fun a b c hab hbc => by
        simp only [decide_eq_true_eq] at *
        omega)
      (fun a b => by
        simp only [Bool.or_eq_true, decide_eq_true_eq]
        omega)
      (statsFold cas)
    refine List.Pairwise.map _ ?_ hs
    intro a b hab
    simpa using hab
  · have h1 : ((criteriaStatistics cas).map (fun e => e.total)).sum
        = ((statsFold cas).map (fun e => e.total)).sum :=
      (hperm.map (fun e => e.total)).sum_eq
    have h2 := statsFoldAux_sum cas []
    simp only [List.map_nil, List.sum_nil, Nat.zero_add] at h2
    have h3 := List.length_eq_countP_add_countP
      (fun a : ClassifiedArticle => jsTrim a.classification.criterion == "") cas
    have h4 : cas.countP
        (fun a => decide ¬((jsTrim a.classification.criterion == "") = true))
        = cas.countP (fun a => !(jsTrim a.classification.criterion == "")) := by
      apply List.countP_congr
      intro x _
      simp
    rw [h4] at h3
    have h2' : ((statsFold cas).map (fun e => e.total)).sum
        = cas.countP (fun a => !(jsTrim a.classification.criterion == "")) := h2
    rw [h1, h2', h3]
    exact Nat.add_comm _ _
  · exact ((hperm.map (fun e => e.criterion)).nodup_iff).mpr hnd
  · intro e he
    exact hcor e (hperm.mem_iff.mp he)
  · intro a ha hne
    have hin := hcom a ha hne
    rcases List.mem_map.mp hin with ⟨e, he, hc⟩
    exact ⟨e, hperm.mem_iff.mpr he, hc⟩

/-- Witness for C5 at a concrete completed set. -/
theorem claim_C5_witness :
    (⟨"c1", 1, 1, 2⟩ : CriterionStat) ∈ criteriaStatistics
        [⟨⟨"t1", "a1", "", ""⟩, ⟨true, "r", " c1 "⟩, none⟩,
         ⟨⟨"t2", "a2", "", ""⟩, ⟨false, "r", "c1"⟩, none⟩,
         ⟨⟨"t3", "a3", "", ""⟩, ⟨true, "r", "  "⟩, none⟩] ∧
      statCorrect
        [⟨⟨"t1", "a1", "", ""⟩, ⟨true, "r", " c1 "⟩, none⟩,
         ⟨⟨"t2", "a2", "", ""⟩, ⟨false, "r", "c1"⟩, none⟩,
         ⟨⟨"t3", "a3", "", ""⟩, ⟨true, "r", "  "⟩, none⟩] ⟨"c1", 1, 1, 2⟩ := by
  have hmem : (⟨"c1", 1, 1, 2⟩ : CriterionStat) ∈ criteriaStatistics
      [⟨⟨"t1", "a1", "", ""⟩, ⟨true, "r", " c1 "⟩, none⟩,
       ⟨⟨"t2", "a2", "", ""⟩, ⟨false, "r", "c1"⟩, none⟩,
       ⟨⟨"t3", "a3", "", ""⟩, ⟨true, "r", "  "⟩, none⟩] :=
    (List.mergeSort_perm _ _).mem_iff.mpr (by decide)
  exact ⟨hmem, (claim_C5 _).2.2.2.2.2.1 _ hmem⟩

/-! ## C2 and C9: cancellation semantics and the concurrency bound -/

theorem orchStep_inFlight_le {backend : Article → Except String Verdict} {pool : List Row}
    {s s' : RunState} (h : OrchStep backend pool s s')
    (hs : s.inFlight.length ≤ CONCURRENT_REQUESTS) :
    s'.inFlight.length ≤ CONCURRENT_REQUESTS := by
  cases h with
  | dispatch hf hp hc => exact List.length_take_le _ _
  | settleOk a v ha hb hc =>
      exact Nat.le_trans ((List.erase_sublist a s.inFlight).length_le) hs
  | settleErr a e ha hb hc =>
      exact Nat.le_trans ((List.erase_sublist a s.inFlight).length_le) hs
  | settleCancelled a ha hc =>
      exact Nat.le_trans ((List.erase_sublist a s.inFlight).length_le) hs
  | cancel => exact hs

theorem orchStep_of_cancelled {backend : Article → Except String Verdict} {pool : List Row}
    {s s' : RunState} (h : OrchStep backend pool s s') (hc : s.cancelled = true) :
    s'.completed = s.completed ∧ s'.pending = s.pending ∧ s'.cancelled = true ∧
      s'.processed = s.processed := by
  cases h with
  | dispatch hf hp hcf => rw [hc] at hcf; cases hcf
  | settleOk a v ha hb hcf => rw [hc] at hcf; cases hcf
  | settleErr a e ha hb hcf => rw [hc] at hcf; cases hcf
  | settleCancelled a ha hcc => exact ⟨rfl, rfl, hc, rfl⟩
  | cancel => exact ⟨rfl, rfl, rfl, rfl⟩

theorem orchReachable_inFlight_le {backend : Article → Except String Verdict} {pool : List Row}
    {seed : List ClassifiedArticle} {queue : List Article} {s : RunState}
    (h : OrchReachable backend pool (initRunState seed queue) s) :
    s.inFlight.length ≤ CONCURRENT_REQUESTS := by
  induction h with
  | refl => simp [initRunState]
  | tail hab hbc ih => exact orchStep_inFlight_le hbc ih

theorem orchReachable_completed_length {backend : Article → Except String Verdict}
    {pool : List Row} {seed : List ClassifiedArticle} {queue : List Article} {s : RunState}
    (hok : ∀ a, ∃ v, backend a = .ok v)
    (h : OrchReachable backend pool (initRunState seed queue) s) :
    s.completed.length = seed.length + s.processed := by
  induction h with
  | refl => simp [initRunState]
  | tail hab hbc ih =>
      cases hbc with
      | dispatch hf hp hc => simpa using ih
      | settleOk a v ha hb hc => simp [ih]; omega
      | settleErr a e ha hb hc =>
          rcases hok a with ⟨v, hv⟩
          rw [hv] at hb
          cases hb
      | settleCancelled a ha hc => simpa using ih
      | cancel => simpa using ih

/-- C2 (amended): once the cancellation flag is set during a run, no step
changes the completed sequence or the pending queue any more (in-flight
results are discarded, no further wave is dispatched) and the flag stays
set; and in a run whose backend calls all succeed, `processed_count` always
equals the number of records appended in this run, so it never exceeds
`|completed|`.  (The unamended bound fails when a classification error is
counted; see the counterexample.) -/
theorem claim_C2_amended (backend : Article → Except String Verdict) (pool : List Row)
    (seed : List ClassifiedArticle) (queue : List Article) (s : RunState)
    (h : OrchReachable backend pool (initRunState seed queue) s) :
    (s.cancelled = true → ∀ s', OrchStep backend pool s s' →
        s'.completed = s.completed ∧ s'.pending = s.pending ∧ s'.cancelled = true) ∧
    ((∀ a, ∃ v, backend a = .ok v) →
        s.completed.length = seed.length + s.processed ∧
        s.processed ≤ s.completed.length) := by
  constructor
  · intro hc s' hstep
    obtain ⟨h1, h2, h3, -⟩ := orchStep_of_cancelled hstep hc
    exact ⟨h1, h2, h3⟩
  · intro hok
    have := orchReachable_completed_length hok h
    exact ⟨this, by omega⟩

/-- Witness for C2 on a one-step run: after the first wave is dispatched the
invariants instantiate concretely. -/
theorem claim_C2_amended_witness :
    OrchReachable (fun _ => .ok ⟨true, "r", "c"⟩) [] (initRunState [] [⟨"w", "x", "", ""⟩])
        ⟨[], [⟨"w", "x", "", ""⟩], [], 0, false⟩ ∧
      (((⟨[], [⟨"w", "x", "", ""⟩], [], 0, false⟩ : RunState).cancelled = true →
        ∀ s', OrchStep (fun _ => .ok ⟨true, "r", "c"⟩) []
            ⟨[], [⟨"w", "x", "", ""⟩], [], 0, false⟩ s' →
          s'.completed = [] ∧ s'.pending = [] ∧ s'.cancelled = true) ∧
      ((∀ a, ∃ v, (fun (_ : Article) => (.ok ⟨true, "r", "c"⟩ : Except String Verdict)) a
            = .ok v) →
        ([] : List ClassifiedArticle).length = ([] : List ClassifiedArticle).length + 0 ∧
          0 ≤ ([] : List ClassifiedArticle).length)) := by
  have hstep : OrchStep (fun _ => .ok ⟨true, "r", "c"⟩) []
      (initRunState [] [⟨"w", "x", "", ""⟩]) ⟨[], [⟨"w", "x", "", ""⟩], [], 0, false⟩ :=
    OrchStep.dispatch (initRunState [] [⟨"w", "x", "", ""⟩]) rfl (by simp [initRunState]) rfl
  have hreach : OrchReachable (fun _ => .ok ⟨true, "r", "c"⟩) []
      (initRunState [] [⟨"w", "x", "", ""⟩]) ⟨[], [⟨"w", "x", "", ""⟩], [], 0, false⟩ :=
    Relation.ReflTransGen.tail Relation.ReflTransGen.refl hstep
  exact ⟨hreach,
    claim_C2_amended (fun _ => .ok ⟨true, "r", "c"⟩) [] [] [⟨"w", "x", "", ""⟩] _ hreach⟩

/-- C2 counterexample: with a backend whose call for the first article
throws, a run over two articles reaches — after the error settles and the
user cancels, while the second task is still in flight — a state in which
cancellation has been issued and `processed_count = 1` exceeds
`|completed| = 0`: the `finally` block of `processBatch` counts errored
records as processed. -/
theorem claim_C2_counterexample :
    OrchReachable
        (fun x => if x.title = "A" then .error "boom" else .ok ⟨true, "r", "c"⟩) []
        (initRunState [] [⟨"A", "a", "", ""⟩, ⟨"B", "b", "", ""⟩])
        ⟨[], [⟨"B", "b", "", ""⟩], [], 1, true⟩ ∧
      (⟨[], [⟨"B", "b", "", ""⟩], [], 1, true⟩ : RunState).cancelled = true ∧
      ((⟨[], [⟨"B", "b", "", ""⟩], [], 1, true⟩ : RunState).completed.length <
        (⟨[], [⟨"B", "b", "", ""⟩], [], 1, true⟩ : RunState).processed) := by
  refine ⟨?_, rfl, by decide⟩
  have h1 : OrchStep (fun x => if x.title = "A" then .error "boom" else .ok ⟨true, "r", "c"⟩) []
      (initRunState [] [⟨"A", "a", "", ""⟩, ⟨"B", "b", "", ""⟩])
      ⟨[], [⟨"A", "a", "", ""⟩, ⟨"B", "b", "", ""⟩], [], 0, false⟩ :=
    OrchStep.dispatch _ rfl (by simp [initRunState]) rfl
  have h2 : OrchStep (fun x => if x.title = "A" then .error "boom" else .ok ⟨true, "r", "c"⟩) []
      ⟨[], [⟨"A", "a", "", ""⟩, ⟨"B", "b", "", ""⟩], [], 0, false⟩
      ⟨[], [⟨"B", "b", "", ""⟩], [], 1, false⟩ :=
    OrchStep.settleErr _ ⟨"A", "a", "", ""⟩ "boom" (by simp) (by simp) rfl
  have h3 : OrchStep (fun x => if x.title = "A" then .error "boom" else .ok ⟨true, "r", "c"⟩) []
      ⟨[], [⟨"B", "b", "", ""⟩], [], 1, false⟩
      ⟨[], [⟨"B", "b", "", ""⟩], [], 1, true⟩ :=
    OrchStep.cancel _
  exact Relation.ReflTransGen.tail
    (Relation.ReflTransGen.tail (Relation.ReflTransGen.tail Relation.ReflTransGen.refl h1) h2) h3

/-- C9: during every run at most `CONCURRENT_REQUESTS = 2` tasks are in
flight at any instant, and the only step that removes records from the
pending queue is the dispatch of a new wave, which fires only when the
previous wave has fully settled and splices off at most
`CONCURRENT_REQUESTS` records. -/
theorem claim_C9 (backend : Article → Except String Verdict) (pool : List Row)
    (seed : List ClassifiedArticle) (queue : List Article) (s : RunState)
    (h : OrchReachable backend pool (initRunState seed queue) s) :
    CONCURRENT_REQUESTS = 2 ∧
    s.inFlight.length ≤ CONCURRENT_REQUESTS ∧
    (∀ s', OrchStep backend pool s s' → s'.pending ≠ s.pending →
      s.inFlight = [] ∧ s'.inFlight = s.pending.take CONCURRENT_REQUESTS ∧
        s'.pending = s.pending.drop CONCURRENT_REQUESTS ∧
        s.pending.length - s'.pending.length ≤ CONCURRENT_REQUESTS) := by
  refine ⟨rfl, orchReachable_inFlight_le h, ?_⟩
  intro s' hstep hne
  cases hstep with
  | dispatch hf hp hc =>
      refine ⟨hf, rfl, rfl, ?_⟩
      simp [List.length_drop]
      omega
  | settleOk a v ha hb hc => exact absurd rfl hne
  | settleErr a e ha hb hc => exact absurd rfl hne
  | settleCancelled a ha hc => exact absurd rfl hne
  | cancel => exact absurd rfl hne

/-- Witness for C9 at the initial state of a concrete run. -/
theorem claim_C9_witness :
    CONCURRENT_REQUESTS = 2 ∧
    (initRunState [] [⟨"w9", "x9", "", ""⟩]).inFlight.length ≤ CONCURRENT_REQUESTS ∧
    (∀ s', OrchStep (fun _ => .ok ⟨false, "r", "c"⟩) []
        (initRunState [] [⟨"w9", "x9", "", ""⟩]) s' →
      s'.pending ≠ (initRunState [] [⟨"w9", "x9", "", ""⟩]).pending →
      (initRunState [] [⟨"w9", "x9", "", ""⟩]).inFlight = [] ∧
        s'.inFlight = (initRunState [] [⟨"w9", "x9", "", ""⟩]).pending.take CONCURRENT_REQUESTS ∧
        s'.pending = (initRunState [] [⟨"w9", "x9", "", ""⟩]).pending.drop CONCURRENT_REQUESTS ∧
        (initRunState [] [⟨"w9", "x9", "", ""⟩]).pending.length - s'.pending.length ≤
          CONCURRENT_REQUESTS) :=
  claim_C9 (fun _ => .ok ⟨false, "r", "c"⟩) [] [] [⟨"w9", "x9", "", ""⟩] _
    Relation.ReflTransGen.refl

/-! ## C1 and C4: resumable re-entry and the per-record failure policy -/

theorem runSuccesses_cons (backend : Article → Except String Verdict) (pool : List Row)
    (a : Article) (l : List Article) :
    runSuccesses backend pool (a :: l) =
      (match backend a with
       | .ok v => [mkClassified pool a v]
       | .error _ => []) ++ runSuccesses backend pool l := by
  unfold runSuccesses
  rw [List.filterMap_cons]
  cases hb : backend a <;> simp [hb]

theorem settleTask_eq (backend : Article → Except String Verdict) (pool : List Row)
    (st : List ClassifiedArticle × Nat) (a : Article) :
    settleTask backend pool st a = (st.1 ++ runSuccesses backend pool [a], st.2 + 1) := by
  unfold settleTask
  cases hb : backend a <;> simp [runSuccesses_cons, hb, runSuccesses]

theorem processBatchRun_eq (backend : Article → Except String Verdict) (pool : List Row) :
    ∀ (queue : List Article) (acc : List ClassifiedArticle) (n : Nat),
      processBatchRun backend pool queue acc n =
        (acc ++ runSuccesses backend pool queue, n + queue.length, queue)
  | [], acc, n => by simp [processBatchRun, runSuccesses]
  | [a], acc, n => by
      rw [processBatchRun, settleTask_eq]
      simp
  | a :: b :: rest, acc, n => by
      rw [processBatchRun, settleTask_eq, settleTask_eq,
        processBatchRun_eq backend pool rest]
      rw [runSuccesses_cons backend pool a, runSuccesses_cons backend pool b]
      simp only [Prod.mk.injEq]
      refine ⟨?_, ?_, trivial⟩
      · rw [runSuccesses_cons backend pool a (b :: rest), runSuccesses_cons backend pool b rest]
        have hnil : runSuccesses backend pool [] = [] := rfl
        rw [hnil]
        simp [List.append_assoc]
      · simp only [List.length_cons]
        omega

theorem handleContinueAnalysis_eq (backend : Article → Except String Verdict) (pool : List Row)
    (articles : List Article) (classified : List ClassifiedArticle) :
    handleContinueAnalysis backend pool articles classified =
      (classified ++ runSuccesses backend pool (unclassifiedArticles articles classified),
       (unclassifiedArticles articles classified).length,
       unclassifiedArticles articles classified) := by
  unfold handleContinueAnalysis runAnalysisForArticles
  by_cases h : (unclassifiedArticles articles classified).isEmpty
  · rw [if_pos h]
    have he : unclassifiedArticles articles classified = [] := List.isEmpty_iff.mp h
    rw [he]
    simp [runSuccesses]
  · rw [if_neg h, processBatchRun_eq]
    simp

theorem mem_unclassifiedArticles (articles : List Article)
    (classified : List ClassifiedArticle) (a : Article) :
    a ∈ unclassifiedArticles articles classified ↔
      a ∈ articles ∧ ∀ c ∈ classified, caKey c ≠ articleKey a := by
  unfold unclassifiedArticles
  rw [List.mem_filter]
  apply and_congr_right
  intro _
  rw [Bool.not_eq_true', List.any_eq_false]
  apply forall_congr'
  intro c
  apply imp_congr_right
  intro _
  simp [caKey, articleKey, Prod.ext_iff]

theorem runSuccesses_total (backend : Article → Verdict) (pool : List Row)
    (queue : List Article) :
    runSuccesses (fun a => .ok (backend a)) pool queue =
      queue.map (fun a => mkClassified pool a (backend a)) := by
  induction queue with
  | nil => rfl
  | cons a rest ih => rw [runSuccesses_cons]; simp [ih]

theorem map_caKey_mkClassified (backend : Article → Verdict) (pool : List Row)
    (l : List Article) :
    (l.map (fun a => mkClassified pool a (backend a))).map caKey = l.map articleKey := by
  rw [List.map_map]
  rfl

theorem unclassifiedArticles_eq_filter_key (A : List Article)
    (C : List ClassifiedArticle) :
    unclassifiedArticles A C =
      A.filter (fun a => decide (articleKey a ∉ C.map caKey)) := by
  unfold unclassifiedArticles
  apply List.filter_congr
  intro a _
  by_cases hmem : articleKey a ∈ C.map caKey
  · rcases List.mem_map.mp hmem with ⟨c, hc, hck⟩
    have hany : C.any (fun c => c.title == a.title && c.abstract == a.abstract) = true := by
      rw [List.any_eq_true]
      refine ⟨c, hc, ?_⟩
      rw [caKey, articleKey, Prod.mk.injEq] at hck
      simp [hck.1, hck.2]
    simp [hany, hmem]
  · have hany : C.any (fun c => c.title == a.title && c.abstract == a.abstract) = false := by
      rw [List.any_eq_false]
      intro c hc hcontra
      apply hmem
      rw [Bool.and_eq_true, beq_iff_eq, beq_iff_eq] at hcontra
      exact List.mem_map.mpr ⟨c, hc, by rw [caKey, articleKey, hcontra.1, hcontra.2]⟩
    simp [hany, hmem]

theorem map_key_filter (A : List Article) (q : String × String → Bool) :
    (A.filter (fun a => q (articleKey a))).map articleKey = (A.map articleKey).filter q := by
  induction A with
  | nil => rfl
  | cons a rest ih =>
      by_cases h : q (articleKey a) <;> simp [List.filter_cons, h, ih]

/-- C1: invoking continue-analysis dispatches exactly the articles of `A`
whose `(title, abstract)` pair does not occur in the completed set `C`, and
appends their results to the existing completed sequence; when `C` holds the
classifications of a sublist `S` of `A` (the records finished before a
simulated crash) and the keys of `A` are pairwise distinct, the final
completed set after the resumed error-free run equals `A` by
`(title, abstract)` identity, no record is dispatched twice, and the final
sequence holds no duplicate identity. -/
theorem claim_C1 (backend : Article → Verdict) (pool : List Row)
    (A S : List Article) (hS : S.Sublist A) (hA : (A.map articleKey).Nodup) :
    let C := S.map (fun x => mkClassified pool x (backend x))
    let run := handleContinueAnalysis (fun x => .ok (backend x)) pool A C
    (run.2.2 = unclassifiedArticles A C) ∧
    (∀ a, a ∈ run.2.2 ↔ a ∈ A ∧ ∀ c ∈ C, caKey c ≠ articleKey a) ∧
    ((run.2.2.map articleKey).Nodup) ∧
    (run.1 = C ++ run.2.2.map (fun x => mkClassified pool x (backend x))) ∧
    ((run.1.map caKey).Perm (A.map articleKey)) ∧
    ((run.1.map caKey).Nodup) := by
  intro C run
  have hCkeys : C.map caKey = S.map articleKey := map_caKey_mkClassified backend pool S
  have hrun : run =
      (C ++ runSuccesses (fun x => .ok (backend x)) pool (unclassifiedArticles A C),
       (unclassifiedArticles A C).length, unclassifiedArticles A C) :=
    handleContinueAnalysis_eq _ pool A C
  have hUkeys : (unclassifiedArticles A C).map articleKey =
      (A.map articleKey).filter (fun k => decide (k ∉ S.map articleKey)) := by
    rw [unclassifiedArticles_eq_filter_key]
    have : (fun a => decide (articleKey a ∉ C.map caKey)) =
        (fun a => (fun k => decide (k ∉ S.map articleKey)) (articleKey a)) := by
      funext a
      rw [hCkeys]
    rw [this]
    exact map_key_filter A (fun k => decide (k ∉ S.map articleKey))
  have hSk : (S.map articleKey).Sublist (A.map articleKey) := hS.map _
  have hSnd : (S.map articleKey).Nodup := hSk.nodup hA
  have hfinalKeys : run.1.map caKey =
      S.map articleKey ++
        (A.map articleKey).filter (fun k => decide (k ∉ S.map articleKey)) := by
    rw [hrun]
    show (C ++ _).map caKey = _
    rw [List.map_append, hCkeys, runSuccesses_total, map_caKey_mkClassified, hUkeys]
  have hperm : (run.1.map caKey).Perm (A.map articleKey) := by
    rw [hfinalKeys]
    have h1 : (S.map articleKey).Perm
        ((A.map articleKey).filter (fun k => decide (k ∈ S.map articleKey))) := by
      rw [List.perm_ext_iff_of_nodup hSnd (hA.filter _)]
      intro k
      rw [List.mem_filter]
      constructor
      · intro hk
        exact ⟨hSk.subset hk, by simpa using hk⟩
      · intro hk
        simpa using hk.2
    have h2 : ((A.map articleKey).filter (fun k => decide (k ∈ S.map articleKey)) ++
        (A.map articleKey).filter (fun k => decide (k ∉ S.map articleKey))).Perm
          (A.map articleKey) := by
      have := List.filter_append_perm
        (fun k => decide (k ∈ S.map articleKey)) (A.map articleKey)
      have hcong : (A.map articleKey).filter
            (fun k => !decide (k ∈ S.map articleKey)) =
          (A.map articleKey).filter (fun k => decide (k ∉ S.map articleKey)) := by
        apply List.filter_congr
        intro k _
        rw [decide_not]
      rwa [hcong] at this
    exact (h1.append_right _).trans h2
  refine ⟨by rw [hrun], ?_, ?_, ?_, hperm, hperm.nodup_iff.mpr hA⟩
  · intro a
    rw [hrun]
    exact mem_unclassifiedArticles A C a
  · rw [hrun]
    show ((unclassifiedArticles A C).map articleKey).Nodup
    rw [hUkeys]
    exact hA.filter _
  · rw [hrun]
    show C ++ _ = C ++ _
    rw [runSuccesses_total]

/-- Witness for C1: two articles, one already classified before the
simulated crash. -/
theorem claim_C1_witness :
    let bk : Article → Verdict := fun _ => ⟨true, "ok", "1. c"⟩
    let A : List Article := [⟨"t1", "a1", "", ""⟩, ⟨"t2", "a2", "", ""⟩]
    let S : List Article := [⟨"t1", "a1", "", ""⟩]
    let C := S.map (fun x => mkClassified [] x (bk x))
    let run := handleContinueAnalysis (fun x => .ok (bk x)) [] A C
    (run.2.2 = unclassifiedArticles A C) ∧
    (∀ a, a ∈ run.2.2 ↔ a ∈ A ∧ ∀ c ∈ C, caKey c ≠ articleKey a) ∧
    ((run.2.2.map articleKey).Nodup) ∧
    (run.1 = C ++ run.2.2.map (fun x => mkClassified [] x (bk x))) ∧
    ((run.1.map caKey).Perm (A.map articleKey)) ∧
    ((run.1.map caKey).Nodup) :=
  claim_C1 (fun _ => ⟨true, "ok", "1. c"⟩) []
    [⟨"t1", "a1", "", ""⟩, ⟨"t2", "a2", "", ""⟩] [⟨"t1", "a1", "", ""⟩]
    (List.Sublist.cons₂ _ (List.nil_sublist _)) (by decide)

/-- C4: when the backend call for one record of the queue throws, that
record's result never reaches the completed sequence, the record is
dispatched exactly once (no retry within the run), every sibling whose call
succeeds is still appended and every wave is still dispatched, and the
failed record is selected as remaining by a subsequent continue-analysis
invocation. -/
theorem claim_C4 (backend : Article → Except String Verdict) (pool : List Row)
    (queue : List Article) (seed : List ClassifiedArticle) (f : Article) (e : String)
    (hf : f ∈ queue) (hfail : backend f = .error e)
    (hq : (queue.map articleKey).Nodup)
    (hseed : ∀ c ∈ seed, caKey c ≠ articleKey f) :
    let r := runAnalysisForArticles backend pool seed queue
    (∀ c ∈ r.1, caKey c ≠ articleKey f) ∧
    (r.2.2.count f = 1) ∧
    (∀ g v, g ∈ queue → backend g = .ok v → mkClassified pool g v ∈ r.1) ∧
    (r.2.2 = queue) ∧
    (∀ allA : List Article, f ∈ allA → f ∈ unclassifiedArticles allA r.1) := by
  intro r
  have hr : r = (seed ++ runSuccesses backend pool queue, 0 + queue.length, queue) :=
    processBatchRun_eq backend pool queue seed 0
  have hnotin : ∀ c ∈ runSuccesses backend pool queue, caKey c ≠ articleKey f := by
    intro c hc
    rcases List.mem_filterMap.mp hc with ⟨g, hg, hgc⟩
    cases hb : backend g with
    | ok v =>
        rw [hb] at hgc
        cases hgc
        intro hkey
        have : g = f := List.inj_on_of_nodup_map hq hg hf hkey
        rw [this, hfail] at hb
        cases hb
    | error e2 => rw [hb] at hgc; cases hgc
  have hall : ∀ c ∈ r.1, caKey c ≠ articleKey f := by
    rw [hr]
    intro c hc
    rcases List.mem_append.mp hc with hcs | hcr
    · exact hseed c hcs
    · exact hnotin c hcr
  refine ⟨hall, ?_, ?_, by rw [hr], ?_⟩
  · rw [hr]
    exact List.count_eq_one_of_mem (hq.of_map _) hf
  · intro g v hg hok
    rw [hr]
    refine List.mem_append_right _ (List.mem_filterMap.mpr ⟨g, hg, ?_⟩)
    rw [hok]
  · intro allA hfA
    rw [mem_unclassifiedArticles]
    exact ⟨hfA, hall⟩

/-- Witness for C4: a two-article queue whose first call throws. -/
theorem claim_C4_witness :
    let bk : Article → Except String Verdict :=
      fun x => if x.title = "t1" then .error "boom" else .ok ⟨true, "ok", "1. c"⟩
    let queue : List Article := [⟨"t1", "a1", "", ""⟩, ⟨"t2", "a2", "", ""⟩]
    let r := runAnalysisForArticles bk [] [] queue
    (∀ c ∈ r.1, caKey c ≠ articleKey ⟨"t1", "a1", "", ""⟩) ∧
    (r.2.2.count ⟨"t1", "a1", "", ""⟩ = 1) ∧
    (∀ g v, g ∈ queue → bk g = .ok v → mkClassified [] g v ∈ r.1) ∧
    (r.2.2 = queue) ∧
    (∀ allA : List Article, ⟨"t1", "a1", "", ""⟩ ∈ allA →
      (⟨"t1", "a1", "", ""⟩ : Article) ∈ unclassifiedArticles allA r.1) :=
  claim_C4
    (fun x => if x.title = "t1" then .error "boom" else .ok ⟨true, "ok", "1. c"⟩) [] 
    [⟨"t1", "a1", "", ""⟩, ⟨"t2", "a2", "", ""⟩] [] ⟨"t1", "a1", "", ""⟩ "boom"
    (by simp) (by decide) (by decide) (by simp)

/-! ## C3: verdict extraction from the raw response text -/

theorem dropWhile_head_false {α : Type} (p : α → Bool) (l : List α) :
    l.dropWhile p = [] ∨ ∃ x xs, l.dropWhile p = x :: xs ∧ p x = false := by
  induction l with
  | nil => exact Or.inl rfl
  | cons a rest ih =>
      cases hpa : p a
      · refine Or.inr ⟨a, rest, ?_, hpa⟩
        simp [List.dropWhile_cons, hpa]
      · simpa [List.dropWhile_cons, hpa] using ih

theorem dropWhile_append_all {α : Type} (p : α → Bool) {xs : List α} (ys : List α)
    (h : ∀ x ∈ xs, p x = true) :
    List.dropWhile p (xs ++ ys) = List.dropWhile p ys := by
  induction xs with
  | nil => rfl
  | cons a rest ih =>
      rw [List.cons_append,
        List.dropWhile_cons, if_pos (h a (List.mem_cons_self a rest))]
      exact ih (fun x hx => h x (List.mem_cons_of_mem a hx))

theorem parseBackendResponse_none (msg : String) (content : List Char)
    (h : extractJsonSubstring content = none) :
    parseBackendResponse msg content = .error msg := by
  unfold parseBackendResponse
  rw [h]

theorem parseBackendResponse_some (msg : String) (content s : List Char)
    (hs : extractJsonSubstring content = some s) :
    parseBackendResponse msg content =
      match parseJson s with
      | none => Except.error "SyntaxError: JSON.parse"
      | some j => Except.ok (coerceVerdict j) := by
  unfold parseBackendResponse
  rw [hs]

theorem extractJsonSubstring_eq_some_iff (content s : List Char) :
    extractJsonSubstring content = some s ↔
      ∃ pre post, content = pre ++ s ++ post ∧
        (∀ c ∈ pre, c ≠ openBrace) ∧ (∀ c ∈ post, c ≠ closeBrace) ∧
        s.head? = some openBrace ∧ s.getLast? = some closeBrace := by
  unfold extractJsonSubstring
  constructor
  · intro h
    set t := content.dropWhile (fun c => c != openBrace) with ht
    set r := (t.reverse.dropWhile (fun c => c != closeBrace)).reverse with hr
    by_cases hre : r.isEmpty
    · rw [if_pos hre] at h
      cases h
    · rw [if_neg hre] at h
      have hs : r = s := Option.some.inj h
      subst hs
      have hrne : r ≠ [] := by
        intro hreq
        rw [hreq] at hre
        exact hre rfl
      have h2 : t = r ++ (t.reverse.takeWhile (fun c => c != closeBrace)).reverse := by
        have h3 : t.reverse.takeWhile (fun c => c != closeBrace) ++
            t.reverse.dropWhile (fun c => c != closeBrace) = t.reverse :=
          List.takeWhile_append_dropWhile _ _
        calc t = t.reverse.reverse := (List.reverse_reverse t).symm
          _ = (t.reverse.takeWhile (fun c => c != closeBrace) ++
              t.reverse.dropWhile (fun c => c != closeBrace)).reverse := by rw [h3]
          _ = r ++ (t.reverse.takeWhile (fun c => c != closeBrace)).reverse := by
              rw [List.reverse_append, hr]
      refine ⟨content.takeWhile (fun c => c != openBrace),
              (t.reverse.takeWhile (fun c => c != closeBrace)).reverse, ?_, ?_, ?_, ?_, ?_⟩
      · rw [List.append_assoc, ← h2, ht]
        exact (List.takeWhile_append_dropWhile _ _).symm
      · intro c hc
        have := List.mem_takeWhile_imp hc
        simpa using this
      · intro c hc
        rw [List.mem_reverse] at hc
        have := List.mem_takeWhile_imp hc
        simpa using this
      · rcases List.exists_cons_of_ne_nil hrne with ⟨x, xs, hx⟩
        rcases dropWhile_head_false (fun c => c != openBrace) content with hnil | ⟨y, ys, hy, hpy⟩
        · rw [← ht] at hnil
          rw [hnil, hx] at h2
          simp at h2
        · rw [← ht] at hy
          have hyopen : y = openBrace := by simpa using hpy
          have hhead : t.head? = some y := by rw [hy]; rfl
          rw [h2, hx] at hhead
          have : x = y := by
            simpa using hhead
          rw [hx, this, hyopen]
          rfl
      · have hdne : t.reverse.dropWhile (fun c => c != closeBrace) ≠ [] := by
          intro hdeq
          apply hrne
          rw [hr, hdeq]
          rfl
        rcases dropWhile_head_false (fun c => c != closeBrace) t.reverse with hnil | ⟨y, ys, hy, hpy⟩
        · exact absurd hnil hdne
        · have hyclose : y = closeBrace := by simpa using hpy
          rw [hr, List.getLast?_reverse, hy, hyclose]
          rfl
  · rintro ⟨pre, post, hcontent, hpre, hpost, hhead, hlast⟩
    obtain ⟨s1, hs1⟩ : ∃ s1, s = openBrace :: s1 := by
      cases s with
      | nil => cases hhead
      | cons x xs =>
          rw [List.head?_cons] at hhead
          exact ⟨xs, by rw [Option.some.inj hhead]⟩
    obtain ⟨z, hz⟩ : ∃ z, s.reverse = closeBrace :: z := by
      have hrev := List.head?_reverse s
      rw [hlast] at hrev
      cases hsr : s.reverse with
      | nil => rw [hsr] at hrev; cases hrev
      | cons x xs =>
          rw [hsr, List.head?_cons] at hrev
          exact ⟨xs, by rw [Option.some.inj hrev]⟩
    have hT : content.dropWhile (fun c => c != openBrace) = s ++ post := by
      rw [hcontent, List.append_assoc,
        dropWhile_append_all _ _ (fun x hx => by simpa using hpre x hx)]
      rw [hs1, List.cons_append, List.dropWhile_cons]
      simp
    have hrev2 : (content.dropWhile (fun c => c != openBrace)).reverse.dropWhile
        (fun c => c != closeBrace) = s.reverse := by
      rw [hT, List.reverse_append,
        dropWhile_append_all _ _ (fun x hx => by
          rw [List.mem_reverse] at hx
          simpa using hpost x hx)]
      rw [hz, List.dropWhile_cons]
      simp
    show extractJsonSubstring content = some s
    simp only [extractJsonSubstring]
    rw [hrev2, List.reverse_reverse, hs1]
    rfl

/-- C3 counterexample: on a response text holding two JSON objects the
adapters do not extract the first balanced-brace JSON substring — the greedy
regex grabs everything from the first opening brace to the last closing
brace, `JSON.parse` throws on it and the classification fails, while the
first balanced-brace substring parses to a verdict. -/
theorem claim_C3_counterexample :
    classifyWithOllamaParse
        "ok \x7b\"include\": true, \"reason\": \"r\", \"criterion\": \"c\"\x7d and \x7b\x7d".data
      = .error "SyntaxError: JSON.parse" ∧
    classifyWithDeepSeekParse
        "ok \x7b\"include\": true, \"reason\": \"r\", \"criterion\": \"c\"\x7d and \x7b\x7d".data
      = .error "SyntaxError: JSON.parse" ∧
    specBalancedVerdict
        "ok \x7b\"include\": true, \"reason\": \"r\", \"criterion\": \"c\"\x7d and \x7b\x7d".data
      = .ok ⟨true, "r", "c"⟩ ∧
    extractJsonSubstring
        "ok \x7b\"include\": true, \"reason\": \"r\", \"criterion\": \"c\"\x7d and \x7b\x7d".data
      ≠ specFirstBalancedSubstring
        "ok \x7b\"include\": true, \"reason\": \"r\", \"criterion\": \"c\"\x7d and \x7b\x7d".data :=
  ⟨rfl, rfl, rfl, by decide⟩

/-- C3 (amended): both adapters extract the substring running from the first
opening brace to the last closing brace of the content (the greedy regex
match, characterised below), fail with the malformed-response error when no
such substring exists, fail when `JSON.parse` rejects the extracted
substring, and on a parsed object boolean-coerce `include` and replace a
missing (or falsy) `reason`/`criterion` by the literal placeholder
strings. -/
theorem claim_C3_amended (content : List Char) :
    (∀ s, extractJsonSubstring content = some s ↔
      ∃ pre post, content = pre ++ s ++ post ∧
        (∀ c ∈ pre, c ≠ openBrace) ∧ (∀ c ∈ post, c ≠ closeBrace) ∧
        s.head? = some openBrace ∧ s.getLast? = some closeBrace) ∧
    (extractJsonSubstring content = none →
      classifyWithOllamaParse content = .error "Invalid response format from Ollama" ∧
      classifyWithDeepSeekParse content = .error "Invalid response format from DeepSeek") ∧
    (∀ s, extractJsonSubstring content = some s → parseJson s = none →
      classifyWithOllamaParse content = .error "SyntaxError: JSON.parse" ∧
      classifyWithDeepSeekParse content = .error "SyntaxError: JSON.parse") ∧
    (∀ s j, extractJsonSubstring content = some s → parseJson s = some j →
      classifyWithOllamaParse content = .ok (coerceVerdict j) ∧
      classifyWithDeepSeekParse content = .ok (coerceVerdict j) ∧
      (jsGet j "reason" = none → (coerceVerdict j).reason = "No reason provided") ∧
      (jsGet j "criterion" = none →
        (coerceVerdict j).criterion = "No criterion specified") ∧
      (coerceVerdict j).incl = jsTruthy (jsGet j "include")) := by
  refine ⟨fun s => extractJsonSubstring_eq_some_iff content s, ?_, ?_, ?_⟩
  · intro hnone
    exact ⟨parseBackendResponse_none _ content hnone,
           parseBackendResponse_none _ content hnone⟩
  · intro s hs hparse
    have ho := parseBackendResponse_some "Invalid response format from Ollama" content s hs
    have hd := parseBackendResponse_some "Invalid response format from DeepSeek" content s hs
    rw [hparse] at ho hd
    exact ⟨ho, hd⟩
  · intro s j hs hparse
    have ho := parseBackendResponse_some "Invalid response format from Ollama" content s hs
    have hd := parseBackendResponse_some "Invalid response format from DeepSeek" content s hs
    rw [hparse] at ho hd
    refine ⟨ho, hd, ?_, ?_, rfl⟩
    · intro hget
      unfold coerceVerdict
      rw [hget]
      rfl
    · intro hget
      unfold coerceVerdict
      rw [hget]
      rfl

/-- Witness for C3 on a response whose object lacks `reason` and
`criterion`: both placeholders appear and `include` is coerced. -/
theorem claim_C3_amended_witness :
    classifyWithOllamaParse "ok \x7b\"include\": true\x7d".data =
        .ok ⟨true, "No reason provided", "No criterion specified"⟩ ∧
      classifyWithDeepSeekParse "ok \x7b\"include\": true\x7d".data =
        .ok ⟨true, "No reason provided", "No criterion specified"⟩ := by
  have h := (claim_C3_amended "ok \x7b\"include\": true\x7d".data).2.2.2
    "\x7b\"include\": true\x7d".data (Json.obj [("include", Json.bool true)])
    rfl rfl
  exact ⟨h.1, h.2.1⟩

/-! ## C6: export/import round-trip -/

theorem exportRow_eq (pool : List Row) (c : ClassifiedArticle) (r : Row)
    (horig : c.originalData = some r) :
    exportRow c pool = r ++
      [("classification",
        Json.str (if c.classification.incl then "Include" else "Exclude")),
       ("reason", Json.str c.classification.reason),
       ("criterion", Json.str c.classification.criterion)] := by
  unfold exportRow
  rw [horig]

theorem getVal_exportCols_classification (r : Row) (x y z : Json) :
    getVal (r ++ [("classification", x), ("reason", y), ("criterion", z)])
      "classification" = some x := by
  rw [getVal_append]
  rfl

theorem getVal_exportCols_reason (r : Row) (x y z : Json) :
    getVal (r ++ [("classification", x), ("reason", y), ("criterion", z)])
      "reason" = some y := by
  rw [getVal_append]
  rfl

theorem getVal_exportCols_criterion (r : Row) (x y z : Json) :
    getVal (r ++ [("classification", x), ("reason", y), ("criterion", z)])
      "criterion" = some z := by
  rw [getVal_append]
  rfl

theorem getVal_exportCols_title (r : Row) (x y z : Json) :
    getVal (r ++ [("classification", x), ("reason", y), ("criterion", z)])
      "title" = getVal r "title" := by
  rw [getVal_append]
  rfl

theorem getVal_exportCols_abstract (r : Row) (x y z : Json) :
    getVal (r ++ [("classification", x), ("reason", y), ("criterion", z)])
      "abstract" = getVal r "abstract" := by
  rw [getVal_append]
  rfl

theorem lowercaseRow_append (r app : Row) :
    lowercaseRow (r ++ app) = lowercaseRow r ++ lowercaseRow app := by
  unfold lowercaseRow
  exact List.map_append _ r app

theorem lowercaseRow_exportCols (x y z : Json) :
    lowercaseRow [("classification", x), ("reason", y), ("criterion", z)] =
      [("classification", x), ("reason", y), ("criterion", z)] := by
  unfold lowercaseRow
  rw [List.map_cons, List.map_cons, List.map_cons, List.map_nil]
  rw [show jsToLower "classification" = "classification" from by decide,
      show jsToLower "reason" = "reason" from by decide,
      show jsToLower "criterion" = "criterion" from by decide]

theorem roundtrip_row (pool : List Row) (c : ClassifiedArticle) (r : Row)
    (horig : c.originalData = some r)
    (htitle : getVal r "title" = some (.str c.title))
    (habs : getVal r "abstract" = some (.str c.abstract))
    (htne : c.title ≠ "") (hane : c.abstract ≠ "")
    (hrne : c.classification.reason ≠ "") (hcne : c.classification.criterion ≠ "") :
    (resolveRow (exportRow c pool)).title = c.title ∧
    (resolveRow (exportRow c pool)).abstract = c.abstract ∧
    (resolveRow (exportRow c pool)).classification = c.classification := by
  rw [exportRow_eq pool c r horig]
  set row := r ++ [("classification",
      Json.str (if c.classification.incl then "Include" else "Exclude")),
    ("reason", Json.str c.classification.reason),
    ("criterion", Json.str c.classification.criterion)] with hrow
  refine ⟨?_, ?_, ?_⟩
  · show jsOrChainString [getVal row "title"] = c.title
    rw [hrow, getVal_exportCols_title, htitle]
    simp [jsOrChainString, jsTruthy, jsStringOfJson, htne]
  · show jsOrChainString [getVal row "abstract"] = c.abstract
    rw [hrow, getVal_exportCols_abstract, habs]
    simp [jsOrChainString, jsTruthy, jsStringOfJson, hane]
  · show resolveVerdict row = c.classification
    unfold resolveVerdict
    rw [hrow, getVal_exportCols_classification, getVal_exportCols_reason,
      getVal_exportCols_criterion]
    have hpresent : presentNonEmpty (some (Json.str
        (if c.classification.incl then "Include" else "Exclude"))) = true := by
      cases c.classification.incl <;> rfl
    rw [if_pos hpresent]
    have h1 : parseIncludeFlag (some (Json.str
        (if c.classification.incl then "Include" else "Exclude")))
        = c.classification.incl := by
      cases hb : c.classification.incl <;> rfl
    have h2 : jsStringOrDefault (some (Json.str c.classification.reason)) loadedDefault
        = c.classification.reason := by
      simp [jsStringOrDefault, jsTruthy, hrne, jsStringOfJson]
    have h3 : jsStringOrDefault (some (Json.str c.classification.criterion)) loadedDefault
        = c.classification.criterion := by
      simp [jsStringOrDefault, jsTruthy, hcne, jsStringOfJson]
    rw [h1, h2, h3]

/-- C6 counterexample: a classified record whose reason is the empty string
does not round-trip — re-importing its exported row replaces the empty
reason by the literal `Loaded from previous results` placeholder, because
the loader reads `row.reason || default` and the empty string is falsy. -/
theorem claim_C6_counterexample :
    importPipeline (exportToXlsxRows
        [⟨⟨"t", "a", "", ""⟩, ⟨false, "", "crit"⟩,
          some [("title", Json.str "t"), ("abstract", Json.str "a")]⟩] []) =
      .prevOk
        [⟨⟨"t", "a", "", ""⟩, ⟨false, "Loaded from previous results", "crit"⟩,
          some [("title", Json.str "t"), ("abstract", Json.str "a"),
                ("classification", Json.str "Exclude"), ("reason", Json.str ""),
                ("criterion", Json.str "crit")]⟩] none ∧
      ("" : String) ≠ "Loaded from previous results" :=
  ⟨rfl, by decide⟩

/-- C6 (amended): for a non-empty classified set whose records carry their
lower-cased original rows (with matching non-empty title and abstract) and
whose reasons and criteria are non-empty strings, re-importing the exported
rows routes to the previous-results path and reproduces every record's
include flag, reason and criterion, as well as its `(title, abstract)`
identity; and the new-format `classification` schema always takes priority
over the legacy schemas during resolution.  (Records with an empty reason
or criterion come back with the placeholder instead; see the
counterexample.) -/
theorem claim_C6_amended (cas : List ClassifiedArticle) (pool : List Row)
    (hne : cas ≠ [])
    (hrows : ∀ c ∈ cas, ∃ r : Row, c.originalData = some r ∧
        lowercaseRow r = r ∧
        getVal r "title" = some (.str c.title) ∧
        getVal r "abstract" = some (.str c.abstract) ∧
        c.title ≠ "" ∧ c.abstract ≠ "" ∧
        c.classification.reason ≠ "" ∧ c.classification.criterion ≠ "") :
    (∃ out crit, importPipeline (exportToXlsxRows cas pool) = .prevOk out crit ∧
      out.map (fun c => c.classification) = cas.map (fun c => c.classification) ∧
      out.map caKey = cas.map caKey) ∧
    (∀ row : Row, presentNonEmpty (getVal row "classification") = true →
      resolveVerdict row =
        { incl := parseIncludeFlag (getVal row "classification")
          reason := jsStringOrDefault (getVal row "reason") loadedDefault
          criterion := jsStringOrDefault (getVal row "criterion") loadedDefault }) := by
  constructor
  · obtain ⟨c0, cas', hcas⟩ := List.exists_cons_of_ne_nil hne
    have hrows0 : exportToXlsxRows cas pool =
        exportRow c0 pool :: cas'.map (fun a => exportRow a pool) := by
      rw [hcas]
      rfl
    rcases hrows c0 (by rw [hcas]; exact List.mem_cons_self _ _) with
      ⟨r0, horig0, hlow0, htitle0, habs0, htne0, hane0, hrne0, hcne0⟩
    have hlowmap : (exportToXlsxRows cas pool).map lowercaseRow =
        exportToXlsxRows cas pool := by
      unfold exportToXlsxRows
      rw [List.map_map]
      apply List.map_congr_left
      intro c hc
      rcases hrows c hc with ⟨r, horig, hlow, -, -, -, -, -, -⟩
      show lowercaseRow (exportRow c pool) = exportRow c pool
      rw [exportRow_eq pool c r horig, lowercaseRow_append, hlow,
        lowercaseRow_exportCols]
    have hkclass : hasKey (exportRow c0 pool) "classification" = true := by
      rw [hasKey_iff_getVal]
      exact ⟨_, by rw [exportRow_eq pool c0 r0 horig0]
                   exact getVal_exportCols_classification r0 _ _ _⟩
    have hkt : hasKey (exportRow c0 pool) "title" = true := by
      rw [hasKey_iff_getVal]
      refine ⟨Json.str c0.title, ?_⟩
      rw [exportRow_eq pool c0 r0 horig0, getVal_exportCols_title, htitle0]
    have hka : hasKey (exportRow c0 pool) "abstract" = true := by
      rw [hasKey_iff_getVal]
      refine ⟨Json.str c0.abstract, ?_⟩
      rw [exportRow_eq pool c0 r0 horig0, getVal_exportCols_abstract, habs0]
    have hhcd : hasClassificationData (exportToXlsxRows cas pool) = true := by
      rw [hrows0]
      show resultMarkerColumns.any (fun k => hasKey (exportRow c0 pool) k) = true
      rw [List.any_eq_true]
      exact ⟨"classification", by simp [resultMarkerColumns], hkclass⟩
    have hload : handleLoadPreviousResults (exportToXlsxRows cas pool) =
        .ok (((exportToXlsxRows cas pool).map resolveRow).filter
              (fun a => decide (a.title ≠ "" ∧ a.abstract ≠ "")),
             recoverCriteria (exportToXlsxRows cas pool)) := by
      rw [hrows0]
      show handleLoadPreviousResults (exportRow c0 pool :: _) = _
      have hmiss : requiredColumns.filter
          (fun c => !hasKey (exportRow c0 pool) c) = [] := by
        simp [requiredColumns, hkt, hka]
      simp only [handleLoadPreviousResults, hmiss]
      rfl
    have hpipe : importPipeline (exportToXlsxRows cas pool) =
        .prevOk (((exportToXlsxRows cas pool).map resolveRow).filter
                  (fun a => decide (a.title ≠ "" ∧ a.abstract ≠ "")))
                (recoverCriteria (exportToXlsxRows cas pool)) := by
      unfold importPipeline
      rw [hlowmap, if_pos hhcd, hload]
    have hout : ((exportToXlsxRows cas pool).map resolveRow).filter
          (fun a => decide (a.title ≠ "" ∧ a.abstract ≠ "")) =
        cas.map (fun c => resolveRow (exportRow c pool)) := by
      unfold exportToXlsxRows
      rw [List.map_map]
      apply List.filter_eq_self.mpr
      intro x hx
      rcases List.mem_map.mp hx with ⟨c, hc, hxc⟩
      rcases hrows c hc with ⟨r, horig, -, ht2, ha2, htne, hane, hrne, hcne⟩
      have h3 := roundtrip_row pool c r horig ht2 ha2 htne hane hrne hcne
      rw [← hxc]
      show decide ((resolveRow (exportRow c pool)).title ≠ "" ∧
        (resolveRow (exportRow c pool)).abstract ≠ "") = true
      rw [h3.1, h3.2.1]
      simp [htne, hane]
    refine ⟨cas.map (fun c => resolveRow (exportRow c pool)),
      recoverCriteria (exportToXlsxRows cas pool), by rw [hpipe, hout], ?_, ?_⟩
    · rw [List.map_map]
      apply List.map_congr_left
      intro c hc
      rcases hrows c hc with ⟨r, horig, -, ht2, ha2, htne, hane, hrne, hcne⟩
      exact (roundtrip_row pool c r horig ht2 ha2 htne hane hrne hcne).2.2
    · rw [List.map_map]
      apply List.map_congr_left
      intro c hc
      rcases hrows c hc with ⟨r, horig, -, ht2, ha2, htne, hane, hrne, hcne⟩
      have h3 := roundtrip_row pool c r horig ht2 ha2 htne hane hrne hcne
      show caKey (resolveRow (exportRow c pool)) = caKey c
      unfold caKey
      rw [h3.1, h3.2.1]
  · intro row hp
    unfold resolveVerdict
    rw [if_pos hp]

/-- Witness for C6 at a one-record classified set with a non-empty reason
and criterion. -/
theorem claim_C6_amended_witness :
    (∃ (out : List ClassifiedArticle) (crit : Option Criteria),
      importPipeline (exportToXlsxRows
        [⟨⟨"tw", "aw", "", ""⟩, ⟨true, "because", "1. c"⟩,
          some [("title", Json.str "tw"), ("abstract", Json.str "aw")]⟩] [])
        = .prevOk out crit ∧
      out.map (fun c => c.classification) =
        ([⟨⟨"tw", "aw", "", ""⟩, ⟨true, "because", "1. c"⟩,
          some [("title", Json.str "tw"), ("abstract", Json.str "aw")]⟩] :
            List ClassifiedArticle).map (fun c => c.classification) ∧
      out.map caKey =
        ([⟨⟨"tw", "aw", "", ""⟩, ⟨true, "because", "1. c"⟩,
          some [("title", Json.str "tw"), ("abstract", Json.str "aw")]⟩] :
            List ClassifiedArticle).map caKey) ∧
    (∀ row : Row, presentNonEmpty (getVal row "classification") = true →
      resolveVerdict row =
        { incl := parseIncludeFlag (getVal row "classification")
          reason := jsStringOrDefault (getVal row "reason") loadedDefault
          criterion := jsStringOrDefault (getVal row "criterion") loadedDefault }) :=
  claim_C6_amended
    [⟨⟨"tw", "aw", "", ""⟩, ⟨true, "because", "1. c"⟩,
      some [("title", Json.str "tw"), ("abstract", Json.str "aw")]⟩] []
    (by simp)
    (fun c hc => by
      rw [List.mem_singleton] at hc
      subst hc
      exact ⟨[("title", Json.str "tw"), ("abstract", Json.str "aw")],
        rfl, rfl, rfl, rfl, by decide, by decide, by decide, by decide⟩)
